import Mathlib

/-!
Verification of the load-generation and redline-feedback core of
`osbenchmark/worker_coordinator/worker_coordinator.py`.

Shallow-embedding conventions:
* Python floats are modelled as rationals (`ℚ`); Python ints as `Int`/`Nat`.
* Python dicts keyed by ints are modelled as association lists; the
  dict-nodup-keys property is an explicit well-formedness hypothesis.
* Randomness (`random.sample`, `random.random`, `random.shuffle`) is modelled
  by explicit parameters (an index list, a boolean draw, a shuffled list),
  constrained by hypotheses stating exactly what the library guarantees.
* Wall-clock timestamps (`time.perf_counter`) are not modelled; no claim
  under consideration refers to them.
-/

/-! ## Feedback actor (redline controller), `FeedbackActor` -/

/-- `FeedbackState` enum of the feedback actor. -/
inductive FeedbackState where
  | neutral
  | scaling_down
  | sleep
  | scaling_up
  | disabled
deriving DecidableEq

/-- `self.shared_client_states`: a dict `worker_id → (client_id → active_bool)`,
modelled as a nested association list. -/
abbrev ClientStates := List (Nat × List (Nat × Bool))

/-- The flattened list of `(worker_id, client_id)` pairs of all active clients,
exactly as built by the loop at the start of `FeedbackActor.scale_down`. -/
def allActiveClients (states : ClientStates) : List (Nat × Nat) :=
  states.flatMap (fun ws => (ws.2.filter (fun cs => cs.2)).map (fun cs => (ws.1, cs.1)))

/-- The number of active `(worker, client)` entries. -/
def activeClientCount (states : ClientStates) : Nat :=
  (allActiveClients states).length

/-- The flattened list of inactive `(worker_id, client_id)` pairs, exactly as
built by the comprehension in `FeedbackActor.scale_up`. -/
def inactiveClients (states : ClientStates) : List (Nat × Nat) :=
  states.flatMap (fun ws => (ws.2.filter (fun cs => !cs.2)).map (fun cs => (ws.1, cs.1)))

/-- `sum(len(state) for state in self.shared_client_states.values())`
(`receiveMsg_StartFeedbackActor`). -/
def totalEntryCount (states : ClientStates) : Nat :=
  (states.map (fun ws => ws.2.length)).sum

/-- Update one client entry of one worker dict
(`self.shared_client_states[worker_id][client_id] = b`). -/
def setInner (cs : List (Nat × Bool)) (c : Nat) (b : Bool) : List (Nat × Bool) :=
  cs.map (fun p => if p.1 = c then (p.1, b) else p)

/-- Update `shared_client_states[w][c] := b`. -/
def setClientState (states : ClientStates) (w c : Nat) (b : Bool) : ClientStates :=
  states.map (fun ws => if ws.1 = w then (ws.1, setInner ws.2 c b) else ws)

/-- Well-formedness of the nested dict: worker keys are distinct and, per
worker, client keys are distinct (guaranteed by Python dicts). -/
def WFStates (states : ClientStates) : Prop :=
  (states.map Prod.fst).Nodup ∧ ∀ ws ∈ states, (ws.2.map Prod.fst).Nodup

/-- The mutable state of `FeedbackActor` that the redline claims refer to.
Timestamp fields (`sleep_start_time`, `last_error_time`, `last_scaleup_time`,
`last_cpu_check`) hold wall-clock readings and are omitted. -/
structure FeedbackActorState where
  fstate : FeedbackState
  shared_client_states : ClientStates
  total_client_count : Nat
  total_active_client_count : Int
  num_clients_to_scale_up : Int
  percentage_clients_to_scale_down : ℚ
  max_error_threshold : Int
  max_stable_clients : Int
  probe_interval : Nat
  cycles_since_probe : Nat
  error_queue : List Nat

/-- The pause loop of `FeedbackActor.scale_down`: for each selected
`(worker_id, client_id)` set the shared flag to `False` and decrement
`total_active_client_count`. -/
def pauseClients (s : FeedbackActorState) (pairs : List (Nat × Nat)) : FeedbackActorState :=
  pairs.foldl (fun st wc =>
    { st with
      shared_client_states := setClientState st.shared_client_states wc.1 wc.2 false,
      total_active_client_count := st.total_active_client_count - 1 }) s

/-- `FeedbackActor.scale_down`.  `sampleIdx` stands for the result of
`random.sample(range(len(all_active_clients)), clients_to_pause)`: the code
consumes `clients_to_pause` distinct indices into `all_active_clients`; the
theorems hypothesise exactly that about `sampleIdx`.  The `finally` block
(transition to `SLEEP`, `clear_queue`, timestamping) is inlined in both
branches. -/
def scale_down (s : FeedbackActorState) (sampleIdx : List Nat) : FeedbackActorState :=
  let s1 := { s with max_error_threshold := s.total_active_client_count }
  let clients_to_pause : Int :=
    ⌈(s1.total_active_client_count : ℚ) * s1.percentage_clients_to_scale_down⌉
  if clients_to_pause ≤ 0 then
    { s1 with fstate := .sleep, error_queue := [] }
  else
    let all_active := allActiveClients s1.shared_client_states
    let n := (min clients_to_pause (all_active.length : Int)).toNat
    let chosen := (sampleIdx.take n).filterMap (fun i => all_active[i]?)
    let s2 := pauseClients s1 chosen
    { s2 with fstate := .sleep, error_queue := [] }

/-- One iteration of the activation loop of `FeedbackActor.scale_up`
(the `break` is modelled by skipping once the counter reaches the bound). -/
def activateStep (maxAdd : Int) (acc : FeedbackActorState × Nat) (wc : Nat × Nat) :
    FeedbackActorState × Nat :=
  if (acc.2 : Int) ≥ maxAdd then acc
  else ({ acc.1 with
          shared_client_states := setClientState acc.1.shared_client_states wc.1 wc.2 true,
          total_active_client_count := acc.1.total_active_client_count + 1 },
        acc.2 + 1)

/-- The activation loop of `FeedbackActor.scale_up`; returns the new state
together with `clients_activated`. -/
def activateClients (s : FeedbackActorState) (maxAdd : Int) (inactive : List (Nat × Nat)) :
    FeedbackActorState × Nat :=
  inactive.foldl (activateStep maxAdd) (s, 0)

/-- `FeedbackActor.scale_up`.  `probeRand` stands for the draw
`random.random() < self.probe_probability`; `shuffled` stands for the
`random.shuffle`d `inactive_clients` list (the theorems hypothesise it is a
permutation of `inactiveClients`).  The `finally` block sets the state to
`NEUTRAL`. -/
def scale_up (s : FeedbackActorState) (probeRand : Bool) (shuffled : List (Nat × Nat)) :
    FeedbackActorState :=
  let gap : Int := s.max_error_threshold - s.total_active_client_count
  let max_clients_to_add : Int := min s.num_clients_to_scale_up gap
  let result :=
    if max_clients_to_add ≤ 0 then
      let cycles := s.cycles_since_probe + 1
      let probe := probeRand || decide (s.probe_interval ≤ cycles)
      let cycles1 := if s.probe_interval ≤ cycles then 0 else cycles
      let s1 := { s with cycles_since_probe := cycles1 }
      if probe then (activateClients s1 1 shuffled).1 else s1
    else
      (activateClients s max_clients_to_add shuffled).1
  { result with fstate := .neutral }

/-- The value printed by `FeedbackActor.receiveMsg_ActorExitRequest` as
"Maximum stable client number reached": the code interpolates
`self.total_active_client_count`. -/
def receiveMsg_ActorExitRequest_reported (s : FeedbackActorState) : Int :=
  s.total_active_client_count

/-- The `NEUTRAL` branch of `FeedbackActor.handle_state`: update the running
maximum of stable clients. -/
def handle_state_neutral (s : FeedbackActorState) : FeedbackActorState :=
  { s with max_stable_clients := max s.max_stable_clients s.total_active_client_count }

/-- The shared client dicts built by `WorkerCoordinator.start_benchmark` for a
redline run: every assigned client starts `False`. `assignments` maps each
worker id to its client ids. -/
def initSharedClientStates (assignments : List (Nat × List Nat)) : ClientStates :=
  assignments.map (fun a => (a.1, a.2.map (fun c => (c, false))))

/-- The feedback-actor state right after `__init__` plus
`receiveMsg_StartFeedbackActor` (which installs the shared dicts and counts
total clients; `total_active_client_count` starts at 0). -/
def startFeedbackActor (assignments : List (Nat × List Nat)) : FeedbackActorState :=
  let states := initSharedClientStates assignments
  { fstate := .disabled,
    shared_client_states := states,
    total_client_count := totalEntryCount states,
    total_active_client_count := 0,
    num_clients_to_scale_up := 5,
    percentage_clients_to_scale_down := 1/10,
    max_error_threshold := 10000,
    max_stable_clients := 0,
    probe_interval := 10,
    cycles_since_probe := 0,
    error_queue := [] }

/-- The invariant tying the running counters to the shared dicts. -/
def CounterInvariant (s : FeedbackActorState) : Prop :=
  s.total_active_client_count = (activeClientCount s.shared_client_states : Int) ∧
  s.total_client_count = totalEntryCount s.shared_client_states

/-! ## Schedule factory (`schedule_for`, `requires_time_period_schedule`) -/

/-- The scheduling-relevant fields of a task. -/
structure ScheduleTask where
  warmup_time_period : Option ℚ
  time_period : Option ℚ
  warmup_iterations : Option Nat
  iterations : Option Nat

/-- Python truthiness of an optional int (`if task.iterations:`). -/
def pyTruthyNat : Option Nat → Bool
  | some n => decide (n ≠ 0)
  | none => false

/-- Python truthiness of an optional float (`if task.warmup_time_period:`M). -/
def pyTruthyRat : Option ℚ → Bool
  | some q => decide (q ≠ 0)
  | none => false

/-- `requires_time_period_schedule(task, task_runner, params)`.
`runnerCompleted` models `task_runner.completed` (`none` ↔ Python `None`);
`paramsInfinite` models `params.infinite`. -/
def requires_time_period_schedule (t : ScheduleTask) (runnerCompleted : Option Bool)
    (paramsInfinite : Bool) : Bool :=
  if t.warmup_time_period.isSome || t.time_period.isSome then true
  else if t.warmup_iterations.isSome || t.iterations.isSome then false
  else if runnerCompleted.isSome then true
  else !paramsInfinite

/-- The progress controller selected by `schedule_for` (constructor arguments
of `TimePeriodBased` resp. `IterationBased`). -/
inductive TaskProgressControl where
  | timePeriodBased (warmup_time_period : ℚ) (time_period : Option ℚ)
  | iterationBased (warmup_iterations : Nat) (iterations : Option Nat)
deriving DecidableEq

/-- The `loop_control` computation of `schedule_for` (the only part of that
function the claims refer to). -/
def loop_control_for (t : ScheduleTask) (runnerCompleted : Option Bool)
    (paramsInfinite : Bool) : TaskProgressControl :=
  if requires_time_period_schedule t runnerCompleted paramsInfinite then
    let warmup := if pyTruthyRat t.warmup_time_period then t.warmup_time_period.getD 0 else 0
    .timePeriodBased warmup t.time_period
  else
    let warmup := if pyTruthyNat t.warmup_iterations then t.warmup_iterations.getD 0 else 0
    let iters : Option Nat :=
      if pyTruthyNat t.iterations then t.iterations
      else if paramsInfinite then some 1
      else none
    .iterationBased warmup iters

/-! ## `IterationBased.__init__` -/

/-- The fields set by `IterationBased.__init__` (`_it` is set later by
`start`). -/
structure IterationBasedState where
  warmup_iterations : Option Nat
  iterations : Option Nat
  total_iterations : Option Nat
deriving DecidableEq

/-- `IterationBased.__init__`: raises when both counts are given and their sum
is zero. -/
def IterationBased_init (w i : Option Nat) : Except String IterationBasedState :=
  match w, i with
  | some wv, some iv =>
    if wv + iv = 0 then .error "Operation must run at least for one iteration."
    else .ok ⟨some wv, some iv, some (wv + iv)⟩
  | _, _ => .ok ⟨w, i, none⟩

/-! ## Async executor: `execute_single` and `AsyncExecutor._process_results` -/

/-- The request meta-data fields the claims refer to. -/
structure RequestMeta where
  success : Bool
  skipped_request : Bool
deriving DecidableEq

/-- Abstraction of the runner's return value in `execute_single`
(tuple of length 2 / dict / anything else), plus a failure case standing for
the caught transport errors. -/
inductive RunnerReturn where
  | pair (weight : Nat) (unit : String)
  | dict (weight : Nat) (unit : String) (success : Bool)
  | other
  | transportFailure

/-- The result bundle of `execute_single`; `runner_invoked` records whether the
runner coroutine was awaited (i.e. whether the cluster was contacted). -/
structure ExecuteSingleResult where
  total_ops : Nat
  total_ops_unit : String
  request_meta_data : RequestMeta
  runner_invoked : Bool
deriving DecidableEq

/-- `execute_single(runner, opensearch, params, on_error, ..., client_enabled)`:
if the client is enabled the runner is awaited and its return value shaped into
`(total_ops, total_ops_unit, request_meta_data)`; otherwise the no-op branch
returns `0, "ops", {success: True, skipped_request: True}` without touching the
runner. -/
def execute_single (client_enabled : Bool) (ret : RunnerReturn) : ExecuteSingleResult :=
  if client_enabled then
    match ret with
    | .pair w u => ⟨w, u, ⟨true, false⟩, true⟩
    | .dict w u succ => ⟨w, u, ⟨succ, false⟩, true⟩
    | .other => ⟨1, "ops", ⟨true, false⟩, true⟩
    | .transportFailure => ⟨0, "ops", ⟨false, false⟩, true⟩
  else
    ⟨0, "ops", ⟨true, true⟩, false⟩

/-- `throughput_throttled = expected_scheduled_time > 0`
(`AsyncExecutor._execute_request`). -/
def throughputThrottled (expected_scheduled_time : ℚ) : Bool :=
  decide (0 < expected_scheduled_time)

/-- The `result_data` dict returned by `AsyncExecutor._execute_request`
(timings as rationals). -/
structure ResultData where
  absolute_processing_start : ℚ
  processing_start : ℚ
  processing_end : ℚ
  request_start : ℚ
  request_end : ℚ
  client_request_start : ℚ
  client_request_end : ℚ
  total_ops : Nat
  total_ops_unit : String
  request_meta_data : RequestMeta
  throughput_throttled : Bool

/-- The derived metrics of one sample as computed by
`AsyncExecutor._process_results`. -/
structure ProcessedSample where
  latency : ℚ
  service_time : ℚ
  client_processing_time : ℚ
  processing_time : ℚ
  time_period : ℚ
deriving DecidableEq

/-- `AsyncExecutor._process_results`: on a skipped request no sample is
computed (`none`); otherwise the derived metrics. -/
def process_results (rd : ResultData) (total_start expected_scheduled_time : ℚ) :
    Option ProcessedSample :=
  if rd.request_meta_data.skipped_request then none
  else
    let service_time := rd.request_end - rd.request_start
    let client_processing_time := (rd.client_request_end - rd.client_request_start) - service_time
    let processing_time := rd.processing_end - rd.processing_start
    let time_period := rd.request_end - total_start
    let latency :=
      if rd.throughput_throttled then rd.request_end - (total_start + expected_scheduled_time)
      else service_time
    some ⟨latency, service_time, client_processing_time, processing_time, time_period⟩

/-! ## Throughput calculator (`ThroughputCalculator`) -/

/-- The sample fields consumed by the throughput calculator (one fixed task).
`relative_time` is the Python property `request_start - task_start`. -/
structure TCSample where
  absolute_time : ℚ
  request_start : ℚ
  task_start : ℚ
  sample_type : Nat
  total_ops : Nat
  time_period : ℚ
  throughput : Option ℚ
deriving DecidableEq

/-- `Sample.relative_time` property. -/
def TCSample.relative_time (s : TCSample) : ℚ :=
  s.request_start - s.task_start

/-- `ThroughputCalculator.TaskStats`. -/
structure TaskStats where
  unprocessed : List TCSample
  total_count : Nat
  interval : ℚ
  bucket_interval : ℚ
  bucket : ℚ
  sample_type : Nat
  has_samples_in_sample_type : Bool
  start_time : ℚ
deriving DecidableEq

/-- `TaskStats.__init__`. -/
def initTaskStats (bucket_interval : ℚ) (sample_type : Nat) (start_time : ℚ) : TaskStats :=
  { unprocessed := [], total_count := 0, interval := 0, bucket_interval := bucket_interval,
    bucket := bucket_interval, sample_type := sample_type,
    has_samples_in_sample_type := false, start_time := start_time }

/-- `TaskStats.throughput` property. -/
def TaskStats.throughput (ts : TaskStats) : ℚ :=
  (ts.total_count : ℚ) / ts.interval

/-- `TaskStats.maybe_update_sample_type`. -/
def TaskStats.maybe_update_sample_type (ts : TaskStats) (t : Nat) : TaskStats :=
  if ts.sample_type < t then { ts with sample_type := t, has_samples_in_sample_type := false }
  else ts

/-- `TaskStats.update_interval`. -/
def TaskStats.update_interval (ts : TaskStats) (absolute_sample_time : ℚ) : TaskStats :=
  { ts with interval := max (absolute_sample_time - ts.start_time) ts.interval }

/-- `TaskStats.can_calculate_throughput`. -/
def TaskStats.can_calculate_throughput (ts : TaskStats) : Bool :=
  decide (0 < ts.interval) && decide (ts.bucket ≤ ts.interval)

/-- `TaskStats.can_add_final_throughput_sample`. -/
def TaskStats.can_add_final_throughput_sample (ts : TaskStats) : Bool :=
  decide (0 < ts.interval) && !ts.has_samples_in_sample_type

/-- Python `int()` (truncation toward zero) on a rational. -/
def pyInt (q : ℚ) : ℤ :=
  if 0 ≤ q then ⌊q⌋ else ⌈q⌉

/-- `TaskStats.finish_bucket`. -/
def TaskStats.finish_bucket (ts : TaskStats) (new_total : Nat) : TaskStats :=
  { ts with
    unprocessed := [],
    total_count := new_total,
    has_samples_in_sample_type := true,
    bucket := (pyInt ts.interval : ℚ) + ts.bucket_interval }

/-- One emitted throughput tuple
`(absolute_time, relative_time, sample_type, value)`; the constant unit string
`f"&#123;unit&#125;/s"` is not modelled. -/
structure ThroughputDatum where
  absolute_time : ℚ
  relative_time : ℚ
  sample_type : Nat
  value : ℚ
deriving DecidableEq

/-- The per-sample loop of `ThroughputCalculator.calculate_task_throughput`,
threading the stats and the running `count`, collecting emitted tuples. -/
def tcLoop (ts : TaskStats) (count : Nat) :
    List TCSample → TaskStats × Nat × List ThroughputDatum
  | [] => (ts, count, [])
  | s :: rest =>
    let ts1 := ts.maybe_update_sample_type s.sample_type
    let count1 := count + s.total_ops
    let ts2 := ts1.update_interval s.absolute_time
    if ts2.can_calculate_throughput then
      let ts3 := ts2.finish_bucket count1
      let r := tcLoop ts3 count1 rest
      (r.1, r.2.1, ⟨s.absolute_time, s.relative_time, ts3.sample_type, ts3.throughput⟩ :: r.2.2)
    else
      let r := tcLoop { ts2 with unprocessed := ts2.unprocessed ++ [s] } count1 rest
      (r.1, r.2.1, r.2.2)

/-- Python `sorted(samples, key=lambda s: s.absolute_time)` (any sort that is a
sorted permutation is an adequate model; ties do not matter to the claims). -/
def sortByAbsoluteTime (l : List TCSample) : List TCSample :=
  List.insertionSort (fun a b => a.absolute_time ≤ b.absolute_time) l

/-- One `ThroughputCalculator.calculate` call restricted to a single task:
merge the new samples `v` with the unprocessed carry-over, sort by
`absolute_time`, then either map provided throughput values
(`map_task_throughput`) or run `calculate_task_throughput` (stats creation,
per-sample loop, final below-interval emission).  An empty `v` models the task
being absent from this batch. -/
def calculate1 (stOpt : Option TaskStats) (v : List TCSample) (bucket_interval_secs : ℚ) :
    Option TaskStats × List ThroughputDatum :=
  match v with
  | [] => (stOpt, [])
  | s0 :: v' =>
    let merged :=
      match stOpt with
      | some st => (s0 :: v') ++ st.unprocessed
      | none => s0 :: v'
    let current_samples := sortByAbsoluteTime merged
    let first_sample := current_samples.headD s0
    if first_sample.throughput.isSome then
      (stOpt, current_samples.map
        (fun s => ⟨s.absolute_time, s.relative_time, s.sample_type, s.throughput.getD 0⟩))
    else
      let st0 :=
        match stOpt with
        | some st => st
        | none => initTaskStats bucket_interval_secs first_sample.sample_type
            (first_sample.absolute_time - first_sample.time_period)
      let r := tcLoop st0 st0.total_count current_samples
      match current_samples.getLast? with
      | some last =>
        if r.1.can_add_final_throughput_sample then
          let st2 := r.1.finish_bucket r.2.1
          (some st2, r.2.2 ++ [⟨last.absolute_time, last.relative_time, st2.sample_type, st2.throughput⟩])
        else (some r.1, r.2.2)
      | none => (some r.1, r.2.2)

/-! ## Allocator (`Allocator.allocations`, `Allocator.clients`) -/

/-- A leaf task of the schedule. -/
structure SubTask where
  clients : Nat
  completes_parent : Bool
deriving DecidableEq

/-- One element of the schedule: a (possibly parallel) group with its declared
client count (`task.clients`) and its leaf sub-tasks (iterating the element
yields them). -/
structure TaskGroup where
  clients : Nat
  subtasks : List SubTask

/-- A cell of the allocation matrix: a `JoinPoint`, a `TaskAllocation`, or the
`None` padding. -/
inductive Allocation where
  | joinPoint (id : Nat) (clients_executing_completing_task : List Nat)
  | taskAlloc (task : SubTask) (client_index_in_task : Nat) (global_client_index : Nat)
      (total_clients : Nat)
  | padNone
deriving DecidableEq

/-- `allocations[i].append(a)`. -/
def appendAt : List (List Allocation) → Nat → Allocation → List (List Allocation)
  | [], _, _ => []
  | r :: rs, 0, a => (r ++ [a]) :: rs
  | r :: rs, i + 1, a => r :: appendAt rs i a

/-- The inner loop of `Allocator.allocations` over one sub-task:
`for client_index in range(start, start + sub_task.clients)` append a
`TaskAllocation` at row `client_index % max_clients`. -/
def allocSubTask (rows : List (List Allocation)) (m start : Nat) (st : SubTask)
    (groupClients : Nat) : List (List Allocation) :=
  (List.range' start st.clients).foldl
    (fun rws ci => appendAt rws (ci % m) (.taskAlloc st (ci - start) ci groupClients)) rows

/-- The physical client indices appended to `clients_executing_completing_task`
while processing one sub-task. -/
def completingOf (m start : Nat) (st : SubTask) : List Nat :=
  if st.completes_parent then (List.range' start st.clients).map (fun ci => ci % m) else []

/-- The loop of `Allocator.allocations` over the sub-tasks of one group,
returning the grown rows, the final `start_client_index` and the accumulated
completing-clients list. -/
def allocGroupSubTasks (rows : List (List Allocation)) (m : Nat) (g : TaskGroup) :
    List (List Allocation) × Nat × List Nat :=
  g.subtasks.foldl
    (fun acc st =>
      (allocSubTask acc.1 m acc.2.1 st g.clients, acc.2.1 + st.clients,
       acc.2.2 ++ completingOf m acc.2.1 st))
    (rows, 0, [])

/-- The `None` padding after a group: when `start % m > 0`, rows
`start % m, …, m - 1` each get one `None`. -/
def padRows (rows : List (List Allocation)) (m start : Nat) : List (List Allocation) :=
  if start % m > 0 then
    (List.range' (start % m) (m - start % m)).foldl (fun rws ci => appendAt rws ci .padNone) rows
  else rows

/-- Processing of one schedule element in `Allocator.allocations`: sub-task
allocations, padding, then a `JoinPoint` appended to every row. -/
def allocGroup (rows : List (List Allocation)) (m jid : Nat) (g : TaskGroup) :
    List (List Allocation) :=
  let r := allocGroupSubTasks rows m g
  let rows1 := padRows r.1 m r.2.1
  rows1.map (fun row => row ++ [.joinPoint jid r.2.2])

/-- `Allocator.clients`: the maximum of 1 and all groups' client counts. -/
def allocatorClients (schedule : List TaskGroup) : Nat :=
  schedule.foldl (fun mx g => max mx g.clients) 1

/-- `Allocator.allocations`: start every row with `JoinPoint(0)`, then process
each group with increasing join-point ids. -/
def allocations (schedule : List TaskGroup) : List (List Allocation) :=
  let m := allocatorClients schedule
  let rows0 := List.replicate m [Allocation.joinPoint 0 []]
  (schedule.foldl (fun acc g => (allocGroup acc.1 m acc.2 g, acc.2 + 1)) (rows0, 1)).1

/-- The join-point id of a cell, `none` for task allocations and padding.
Rows with equal `jpId` images have equal length and identical JoinPoint ids at
identical column positions. -/
def jpId : Allocation → Option Nat
  | .joinPoint id _ => some id
  | _ => none

/-- A concrete redline state: 10 active clients on one worker, the default
scale-down percentage 0.10, one queued error. -/
def exampleRedlineState : FeedbackActorState :=
  { fstate := .neutral,
    shared_client_states := [(0, (List.range 10).map (fun c => (c, true)))],
    total_client_count := 10,
    total_active_client_count := 10,
    num_clients_to_scale_up := 5,
    percentage_clients_to_scale_down := 1/10,
    max_error_threshold := 10000,
    max_stable_clients := 0,
    probe_interval := 10,
    cycles_since_probe := 0,
    error_queue := [0] }

/-- A concrete state at the ceiling with no inactive clients: both clients
active, `max_error_threshold = 2` (gap 0), and the probe cycle counter one
step from firing. -/
def probeCeilingState : FeedbackActorState :=
  { fstate := .scaling_up,
    shared_client_states := [(0, [(0, true)]), (1, [(0, true)])],
    total_client_count := 2,
    total_active_client_count := 2,
    num_clients_to_scale_up := 5,
    percentage_clients_to_scale_down := 1/10,
    max_error_threshold := 2,
    max_stable_clients := 2,
    probe_interval := 10,
    cycles_since_probe := 9,
    error_queue := [] }

/-- A concrete state at the ceiling with one inactive client left: gap 0 and
the probe cycle counter one step from firing. -/
def probeWitnessState : FeedbackActorState :=
  { fstate := .scaling_up,
    shared_client_states := [(0, [(0, true), (1, false)])],
    total_client_count := 2,
    total_active_client_count := 1,
    num_clients_to_scale_up := 5,
    percentage_clients_to_scale_down := 1/10,
    max_error_threshold := 1,
    max_stable_clients := 1,
    probe_interval := 10,
    cycles_since_probe := 9,
    error_queue := [] }

/-- A warmup sample at absolute time 2 (time period 2, so the task started at
time 0). -/
def tcCall1Sample : TCSample := ⟨2, 2, 0, 0, 1, 2, none⟩

/-- A normal-phase sample at absolute time 3/2, arriving in a later
`calculate` batch than `tcCall1Sample`. -/
def tcCall2Sample : TCSample := ⟨3/2, 3/2, 0, 1, 1, 2, none⟩

/-! ## Lemmas about the shared-client-state dictionary -/

theorem setInner_map_fst (cs : List (Nat × Bool)) (c : Nat) (b : Bool) :
    (setInner cs c b).map Prod.fst = cs.map Prod.fst := by
  induction cs with
  | nil => rfl
  | cons p ps ih =>
    simp only [setInner, List.map_cons] at ih ⊢
    rw [ih]
    by_cases h : p.1 = c <;> simp [h]

theorem setInner_length (cs : List (Nat × Bool)) (c : Nat) (b : Bool) :
    (setInner cs c b).length = cs.length := by
  simp [setInner]

theorem setInner_eq_of_not_mem {cs : List (Nat × Bool)} {c : Nat} (b : Bool)
    (h : c ∉ cs.map Prod.fst) : setInner cs c b = cs := by
  induction cs with
  | nil => rfl
  | cons p ps ih =>
    simp only [List.map_cons, List.mem_cons, not_or] at h
    simp only [setInner, List.map_cons] at ih ⊢
    rw [if_neg (fun hc => h.1 hc.symm), ih h.2]

theorem mem_setInner_of_ne {cs : List (Nat × Bool)} {c c' : Nat} {b b' : Bool}
    (h : (c', b') ∈ cs) (hne : c' ≠ c) : (c', b') ∈ setInner cs c b := by
  refine List.mem_map.mpr ⟨(c', b'), h, ?_⟩
  simp [hne]

theorem setClientState_map_fst (states : ClientStates) (w c : Nat) (b : Bool) :
    (setClientState states w c b).map Prod.fst = states.map Prod.fst := by
  induction states with
  | nil => rfl
  | cons ws rest ih =>
    simp only [setClientState, List.map_cons] at ih ⊢
    rw [ih]
    by_cases h : ws.1 = w <;> simp [h]

theorem setClientState_eq_of_not_mem {states : ClientStates} {w : Nat} (c : Nat) (b : Bool)
    (h : w ∉ states.map Prod.fst) : setClientState states w c b = states := by
  induction states with
  | nil => rfl
  | cons ws rest ih =>
    simp only [List.map_cons, List.mem_cons, not_or] at h
    simp only [setClientState, List.map_cons] at ih ⊢
    rw [if_neg (fun hc => h.1 hc.symm), ih h.2]

theorem totalEntryCount_setClientState (states : ClientStates) (w c : Nat) (b : Bool) :
    totalEntryCount (setClientState states w c b) = totalEntryCount states := by
  induction states with
  | nil => rfl
  | cons ws rest ih =>
    simp only [setClientState, totalEntryCount, List.map_cons, List.sum_cons] at ih ⊢
    rw [ih]
    by_cases h : ws.1 = w <;> simp [h, setInner_length]

theorem wf_setClientState {states : ClientStates} (w c : Nat) (b : Bool)
    (h : WFStates states) : WFStates (setClientState states w c b) := by
  refine ⟨by rw [setClientState_map_fst]; exact h.1, ?_⟩
  intro ws' hmem
  simp only [setClientState, List.mem_map] at hmem
  obtain ⟨ws, hws, heq⟩ := hmem
  by_cases hc : ws.1 = w
  · rw [if_pos hc] at heq
    rw [← heq]
    simpa [setInner_map_fst] using h.2 ws hws
  · rw [if_neg hc] at heq
    rw [← heq]
    exact h.2 ws hws

theorem activeClientCount_cons (ws : Nat × List (Nat × Bool)) (rest : ClientStates) :
    activeClientCount (ws :: rest)
      = (ws.2.filter (fun p => p.2)).length + activeClientCount rest := by
  simp [activeClientCount, allActiveClients]

theorem mem_allActiveClients {states : ClientStates} {w c : Nat} :
    (w, c) ∈ allActiveClients states ↔ ∃ ws ∈ states, ws.1 = w ∧ (c, true) ∈ ws.2 := by
  simp only [allActiveClients, List.mem_flatMap, List.mem_map, List.mem_filter]
  constructor
  · rintro ⟨ws, hws, p, ⟨hp, hpt⟩, heq⟩
    refine ⟨ws, hws, ?_, ?_⟩
    · exact (Prod.mk.injEq _ _ _ _).mp heq |>.1
    · have hc : p.1 = c := (Prod.mk.injEq _ _ _ _).mp heq |>.2
      have : p = (c, true) := by
        cases p; simp_all
      exact this ▸ hp
  · rintro ⟨ws, hws, hw, hc⟩
    exact ⟨ws, hws, (c, true), ⟨hc, rfl⟩, by rw [hw]⟩

theorem mem_inactiveClients {states : ClientStates} {w c : Nat} :
    (w, c) ∈ inactiveClients states ↔ ∃ ws ∈ states, ws.1 = w ∧ (c, false) ∈ ws.2 := by
  simp only [inactiveClients, List.mem_flatMap, List.mem_map, List.mem_filter]
  constructor
  · rintro ⟨ws, hws, p, ⟨hp, hpt⟩, heq⟩
    refine ⟨ws, hws, ?_, ?_⟩
    · exact (Prod.mk.injEq _ _ _ _).mp heq |>.1
    · have hc : p.1 = c := (Prod.mk.injEq _ _ _ _).mp heq |>.2
      have : p = (c, false) := by
        cases p; simp_all
      exact this ▸ hp
  · rintro ⟨ws, hws, hw, hc⟩
    exact ⟨ws, hws, (c, false), ⟨hc, by simp⟩, by rw [hw]⟩

theorem setInner_cons (p : Nat × Bool) (ps : List (Nat × Bool)) (c : Nat) (b : Bool) :
    setInner (p :: ps) c b = (if p.1 = c then (p.1, b) else p) :: setInner ps c b := rfl

theorem setClientState_cons (ws : Nat × List (Nat × Bool)) (rest : ClientStates)
    (w c : Nat) (b : Bool) :
    setClientState (ws :: rest) w c b
      = (if ws.1 = w then (ws.1, setInner ws.2 c b) else ws) :: setClientState rest w c b := rfl

theorem filter_setInner_false {cs : List (Nat × Bool)} {c : Nat}
    (hnd : (cs.map Prod.fst).Nodup) (hm : (c, true) ∈ cs) :
    ((setInner cs c false).filter (fun p => p.2)).length + 1
      = (cs.filter (fun p => p.2)).length := by
  induction cs with
  | nil => simp at hm
  | cons p ps ih =>
    simp only [List.map_cons, List.nodup_cons] at hnd
    rcases List.mem_cons.mp hm with heq | hmem
    · subst heq
      have hnotin : (c : Nat) ∉ ps.map Prod.fst := hnd.1
      rw [setInner_cons, if_pos rfl, setInner_eq_of_not_mem false hnotin]
      simp [List.filter_cons]
    · have hc : c ∈ ps.map Prod.fst := List.mem_map.mpr ⟨(c, true), hmem, rfl⟩
      have hpc : p.1 ≠ c := fun h => hnd.1 (h ▸ hc)
      rw [setInner_cons, if_neg hpc]
      have ihs := ih hnd.2 hmem
      by_cases hb : p.2 = true <;> simp only [List.filter_cons, hb] <;> simp <;> omega

theorem filter_setInner_true {cs : List (Nat × Bool)} {c : Nat}
    (hnd : (cs.map Prod.fst).Nodup) (hm : (c, false) ∈ cs) :
    ((setInner cs c true).filter (fun p => p.2)).length
      = (cs.filter (fun p => p.2)).length + 1 := by
  induction cs with
  | nil => simp at hm
  | cons p ps ih =>
    simp only [List.map_cons, List.nodup_cons] at hnd
    rcases List.mem_cons.mp hm with heq | hmem
    · subst heq
      have hnotin : (c : Nat) ∉ ps.map Prod.fst := hnd.1
      rw [setInner_cons, if_pos rfl, setInner_eq_of_not_mem true hnotin]
      simp [List.filter_cons]
    · have hc : c ∈ ps.map Prod.fst := List.mem_map.mpr ⟨(c, false), hmem, rfl⟩
      have hpc : p.1 ≠ c := fun h => hnd.1 (h ▸ hc)
      rw [setInner_cons, if_neg hpc]
      have ihs := ih hnd.2 hmem
      by_cases hb : p.2 = true <;> simp only [List.filter_cons, hb] <;> simp <;> omega

theorem activeClientCount_set_false {states : ClientStates} {w c : Nat}
    (hwf : WFStates states) (hm : (w, c) ∈ allActiveClients states) :
    activeClientCount (setClientState states w c false) + 1 = activeClientCount states := by
  induction states with
  | nil => simp [allActiveClients] at hm
  | cons ws rest ih =>
    obtain ⟨hnd, hin⟩ := hwf
    simp only [List.map_cons, List.nodup_cons] at hnd
    rcases (mem_allActiveClients.mp hm) with ⟨ws', hws', hw, hc⟩
    rcases List.mem_cons.mp hws' with heq | hmem
    · subst heq
      subst hw
      have hnotin : ws'.1 ∉ rest.map Prod.fst := hnd.1
      rw [setClientState_cons, if_pos rfl, setClientState_eq_of_not_mem c false hnotin,
        activeClientCount_cons, activeClientCount_cons]
      have := filter_setInner_false (hin ws' (List.mem_cons_self _ _)) hc
      dsimp only at *
      omega
    · have hwmem : w ∈ rest.map Prod.fst := by
        rw [← hw]; exact List.mem_map.mpr ⟨ws', hmem, rfl⟩
      have hne : ws.1 ≠ w := fun h => hnd.1 (h ▸ hwmem)
      rw [setClientState_cons, if_neg hne, activeClientCount_cons, activeClientCount_cons]
      have hmm : (w, c) ∈ allActiveClients rest :=
        mem_allActiveClients.mpr ⟨ws', hmem, hw, hc⟩
      have := ih ⟨hnd.2, fun x hx => hin x (List.mem_cons_of_mem _ hx)⟩ hmm
      omega

theorem activeClientCount_set_true {states : ClientStates} {w c : Nat}
    (hwf : WFStates states) (hm : (w, c) ∈ inactiveClients states) :
    activeClientCount (setClientState states w c true) = activeClientCount states + 1 := by
  induction states with
  | nil => simp [inactiveClients] at hm
  | cons ws rest ih =>
    obtain ⟨hnd, hin⟩ := hwf
    simp only [List.map_cons, List.nodup_cons] at hnd
    rcases (mem_inactiveClients.mp hm) with ⟨ws', hws', hw, hc⟩
    rcases List.mem_cons.mp hws' with heq | hmem
    · subst heq
      subst hw
      have hnotin : ws'.1 ∉ rest.map Prod.fst := hnd.1
      rw [setClientState_cons, if_pos rfl, setClientState_eq_of_not_mem c true hnotin,
        activeClientCount_cons, activeClientCount_cons]
      have := filter_setInner_true (hin ws' (List.mem_cons_self _ _)) hc
      dsimp only at *
      omega
    · have hwmem : w ∈ rest.map Prod.fst := by
        rw [← hw]; exact List.mem_map.mpr ⟨ws', hmem, rfl⟩
      have hne : ws.1 ≠ w := fun h => hnd.1 (h ▸ hwmem)
      rw [setClientState_cons, if_neg hne, activeClientCount_cons, activeClientCount_cons]
      have hmm : (w, c) ∈ inactiveClients rest :=
        mem_inactiveClients.mpr ⟨ws', hmem, hw, hc⟩
      have := ih ⟨hnd.2, fun x hx => hin x (List.mem_cons_of_mem _ hx)⟩ hmm
      omega

theorem mem_allActiveClients_set_of_ne {states : ClientStates} {p q : Nat × Nat} (b : Bool)
    (hm : q ∈ allActiveClients states) (hne : q ≠ p) :
    q ∈ allActiveClients (setClientState states p.1 p.2 b) := by
  obtain ⟨w, c⟩ := q
  rcases mem_allActiveClients.mp hm with ⟨ws, hws, hw, hc⟩
  by_cases hww : ws.1 = p.1
  · refine mem_allActiveClients.mpr ⟨(ws.1, setInner ws.2 p.2 b), ?_, hw, ?_⟩
    · exact List.mem_map.mpr ⟨ws, hws, by rw [if_pos hww]⟩
    · refine mem_setInner_of_ne hc (fun hcc => hne ?_)
      obtain ⟨p1, p2⟩ := p
      simp_all
  · refine mem_allActiveClients.mpr ⟨ws, ?_, hw, hc⟩
    exact List.mem_map.mpr ⟨ws, hws, by rw [if_neg hww]⟩

theorem mem_inactiveClients_set_of_ne {states : ClientStates} {p q : Nat × Nat} (b : Bool)
    (hm : q ∈ inactiveClients states) (hne : q ≠ p) :
    q ∈ inactiveClients (setClientState states p.1 p.2 b) := by
  obtain ⟨w, c⟩ := q
  rcases mem_inactiveClients.mp hm with ⟨ws, hws, hw, hc⟩
  by_cases hww : ws.1 = p.1
  · refine mem_inactiveClients.mpr ⟨(ws.1, setInner ws.2 p.2 b), ?_, hw, ?_⟩
    · exact List.mem_map.mpr ⟨ws, hws, by rw [if_pos hww]⟩
    · refine mem_setInner_of_ne hc (fun hcc => hne ?_)
      obtain ⟨p1, p2⟩ := p
      simp_all
  · refine mem_inactiveClients.mpr ⟨ws, ?_, hw, hc⟩
    exact List.mem_map.mpr ⟨ws, hws, by rw [if_neg hww]⟩

theorem nodup_allActiveClients {states : ClientStates} (hwf : WFStates states) :
    (allActiveClients states).Nodup := by
  rw [allActiveClients, List.nodup_flatMap]
  constructor
  · intro ws hws
    have hsub : ((ws.2.filter (fun cs => cs.2)).map Prod.fst).Sublist (ws.2.map Prod.fst) :=
      (List.filter_sublist _).map Prod.fst
    have hnd : ((ws.2.filter (fun cs => cs.2)).map Prod.fst).Nodup :=
      (hwf.2 ws hws).sublist hsub
    have : (fun cs : Nat × Bool => ((ws.1, cs.1) : Nat × Nat))
        = (fun k : Nat => (ws.1, k)) ∘ Prod.fst := rfl
    rw [this, ← List.map_map]
    exact hnd.map (fun a b hab => by simpa using hab)
  · have hp : states.Pairwise (fun a b => a.1 ≠ b.1) := List.pairwise_map.mp hwf.1
    refine hp.imp ?_
    intro a b hab x hxa hxb
    rcases List.mem_map.mp hxa with ⟨pa, _, hpa⟩
    rcases List.mem_map.mp hxb with ⟨pb, _, hpb⟩
    apply hab
    rw [← hpa] at hpb
    exact ((Prod.mk.injEq _ _ _ _).mp hpb.symm).1

theorem nodup_inactiveClients {states : ClientStates} (hwf : WFStates states) :
    (inactiveClients states).Nodup := by
  rw [inactiveClients, List.nodup_flatMap]
  constructor
  · intro ws hws
    have hsub : ((ws.2.filter (fun cs => !cs.2)).map Prod.fst).Sublist (ws.2.map Prod.fst) :=
      (List.filter_sublist _).map Prod.fst
    have hnd : ((ws.2.filter (fun cs => !cs.2)).map Prod.fst).Nodup :=
      (hwf.2 ws hws).sublist hsub
    have : (fun cs : Nat × Bool => ((ws.1, cs.1) : Nat × Nat))
        = (fun k : Nat => (ws.1, k)) ∘ Prod.fst := rfl
    rw [this, ← List.map_map]
    exact hnd.map (fun a b hab => by simpa using hab)
  · have hp : states.Pairwise (fun a b => a.1 ≠ b.1) := List.pairwise_map.mp hwf.1
    refine hp.imp ?_
    intro a b hab x hxa hxb
    rcases List.mem_map.mp hxa with ⟨pa, _, hpa⟩
    rcases List.mem_map.mp hxb with ⟨pb, _, hpb⟩
    apply hab
    rw [← hpa] at hpb
    exact ((Prod.mk.injEq _ _ _ _).mp hpb.symm).1

theorem activeClientCount_le_totalEntryCount (states : ClientStates) :
    activeClientCount states ≤ totalEntryCount states := by
  induction states with
  | nil => simp [activeClientCount, allActiveClients, totalEntryCount]
  | cons ws rest ih =>
    rw [activeClientCount_cons]
    simp only [totalEntryCount, List.map_cons, List.sum_cons]
    have := List.length_filter_le (fun p : Nat × Bool => p.2) ws.2
    simp only [totalEntryCount] at ih
    omega

theorem length_filterMap_getElem {l : List (Nat × Nat)} {idxs : List Nat}
    (h : ∀ i ∈ idxs, i < l.length) :
    (idxs.filterMap (fun i => l[i]?)).length = idxs.length := by
  induction idxs with
  | nil => rfl
  | cons i is ih =>
    have hi : i < l.length := h i (List.mem_cons_self _ _)
    rw [List.filterMap_cons, List.getElem?_eq_getElem hi]
    simp only [List.length_cons]
    rw [ih (fun j hj => h j (List.mem_cons_of_mem _ hj))]

theorem mem_of_mem_filterMap_getElem {l : List (Nat × Nat)} {idxs : List Nat} {p : Nat × Nat}
    (h : p ∈ idxs.filterMap (fun i => l[i]?)) : p ∈ l := by
  rcases List.mem_filterMap.mp h with ⟨i, _, hi⟩
  exact List.getElem?_mem hi

theorem nodup_filterMap_getElem {l : List (Nat × Nat)} {idxs : List Nat}
    (hnd : idxs.Nodup) (hlt : ∀ i ∈ idxs, i < l.length) (hl : l.Nodup) :
    (idxs.filterMap (fun i => l[i]?)).Nodup := by
  induction idxs with
  | nil => exact List.nodup_nil
  | cons i is ih =>
    have hi : i < l.length := hlt i (List.mem_cons_self _ _)
    rw [List.filterMap_cons, List.getElem?_eq_getElem hi]
    rw [List.nodup_cons] at hnd ⊢
    refine ⟨?_, ih hnd.2 (fun j hj => hlt j (List.mem_cons_of_mem _ hj))⟩
    intro hmem
    rcases List.mem_filterMap.mp hmem with ⟨j, hj, hji⟩
    have hjlt : j < l.length := hlt j (List.mem_cons_of_mem _ hj)
    rw [List.getElem?_eq_getElem hjlt] at hji
    have : l[j] = l[i] := by injection hji
    have : j = i := (List.Nodup.getElem_inj_iff hl).mp this
    exact hnd.1 (this ▸ hj)

theorem pauseClients_nil (s : FeedbackActorState) : pauseClients s [] = s := rfl

theorem pauseClients_cons (s : FeedbackActorState) (p : Nat × Nat) (ps : List (Nat × Nat)) :
    pauseClients s (p :: ps)
      = pauseClients
          { s with
            shared_client_states := setClientState s.shared_client_states p.1 p.2 false,
            total_active_client_count := s.total_active_client_count - 1 } ps := rfl

theorem pauseClients_spec (pairs : List (Nat × Nat)) (s : FeedbackActorState)
    (hwf : WFStates s.shared_client_states)
    (hnd : pairs.Nodup)
    (hmem : ∀ p ∈ pairs, p ∈ allActiveClients s.shared_client_states) :
    activeClientCount (pauseClients s pairs).shared_client_states + pairs.length
        = activeClientCount s.shared_client_states ∧
    (pauseClients s pairs).total_active_client_count
        = s.total_active_client_count - pairs.length ∧
    WFStates (pauseClients s pairs).shared_client_states ∧
    totalEntryCount (pauseClients s pairs).shared_client_states
        = totalEntryCount s.shared_client_states ∧
    (pauseClients s pairs).max_error_threshold = s.max_error_threshold ∧
    (pauseClients s pairs).total_client_count = s.total_client_count := by
  induction pairs generalizing s with
  | nil =>
    refine ⟨by simp [pauseClients_nil], by simp [pauseClients_nil], ?_,
      by simp [pauseClients_nil], rfl, rfl⟩
    simpa [pauseClients_nil] using hwf
  | cons p ps ih =>
    rw [List.nodup_cons] at hnd
    have hp : p ∈ allActiveClients s.shared_client_states := hmem p (List.mem_cons_self _ _)
    rw [pauseClients_cons]
    set s' : FeedbackActorState :=
      { s with
        shared_client_states := setClientState s.shared_client_states p.1 p.2 false,
        total_active_client_count := s.total_active_client_count - 1 } with hs'
    have hwf' : WFStates s'.shared_client_states := wf_setClientState _ _ _ hwf
    have hmem' : ∀ q ∈ ps, q ∈ allActiveClients s'.shared_client_states := by
      intro q hq
      exact mem_allActiveClients_set_of_ne false (hmem q (List.mem_cons_of_mem _ hq))
        (fun hqp => hnd.1 (hqp ▸ hq))
    have hcount : activeClientCount s'.shared_client_states + 1
        = activeClientCount s.shared_client_states := by
      have : p = (p.1, p.2) := rfl
      exact activeClientCount_set_false hwf (this ▸ hp)
    have htot : totalEntryCount s'.shared_client_states
        = totalEntryCount s.shared_client_states := totalEntryCount_setClientState _ _ _ _
    obtain ⟨ih1, ih2, ih3, ih4, ih5, ih6⟩ := ih s' hwf' hnd.2 hmem'
    refine ⟨?_, ?_, ih3, ?_, ih5, ih6⟩
    · simp only [List.length_cons]
      omega
    · rw [ih2]
      simp only [hs', List.length_cons]
      push_cast
      ring
    · rw [ih4, htot]

theorem activateFold_spec (l : List (Nat × Nat)) (maxAdd : Int) (s : FeedbackActorState) (a : Nat)
    (hwf : WFStates s.shared_client_states)
    (hnd : l.Nodup)
    (hmem : ∀ p ∈ l, p ∈ inactiveClients s.shared_client_states) :
    (l.foldl (activateStep maxAdd) (s, a)).2 = a + min (maxAdd - a).toNat l.length ∧
    (l.foldl (activateStep maxAdd) (s, a)).1.total_active_client_count
        = s.total_active_client_count + min (maxAdd - a).toNat l.length ∧
    activeClientCount (l.foldl (activateStep maxAdd) (s, a)).1.shared_client_states
        = activeClientCount s.shared_client_states + min (maxAdd - a).toNat l.length ∧
    WFStates (l.foldl (activateStep maxAdd) (s, a)).1.shared_client_states ∧
    totalEntryCount (l.foldl (activateStep maxAdd) (s, a)).1.shared_client_states
        = totalEntryCount s.shared_client_states ∧
    (l.foldl (activateStep maxAdd) (s, a)).1.max_error_threshold = s.max_error_threshold ∧
    (l.foldl (activateStep maxAdd) (s, a)).1.cycles_since_probe = s.cycles_since_probe ∧
    (l.foldl (activateStep maxAdd) (s, a)).1.total_client_count = s.total_client_count ∧
    (l.foldl (activateStep maxAdd) (s, a)).1.fstate = s.fstate := by
  induction l generalizing s a with
  | nil =>
    refine ⟨by simp, by simp, by simp, hwf, rfl, rfl, rfl, rfl, rfl⟩
  | cons p ps ih =>
    rw [List.nodup_cons] at hnd
    rw [List.foldl_cons]
    by_cases hge : (a : Int) ≥ maxAdd
    · have hz : (maxAdd - a).toNat = 0 := by omega
      rw [activateStep, if_pos hge]
      obtain ⟨ih1, ih2, ih3, ih4, ih5, ih6, ih7, ih8, ih9⟩ :=
        ih s a hwf hnd.2 (fun q hq => hmem q (List.mem_cons_of_mem _ hq))
      rw [hz] at ih1 ih2 ih3 ⊢
      simp only [Nat.zero_min, Nat.add_zero] at *
      exact ⟨by omega, by omega, by omega, ih4, ih5, ih6, ih7, ih8, ih9⟩
    · have hp : p ∈ inactiveClients s.shared_client_states := hmem p (List.mem_cons_self _ _)
      rw [activateStep, if_neg hge]
      dsimp only
      set s' : FeedbackActorState :=
        { s with
          shared_client_states := setClientState s.shared_client_states p.1 p.2 true,
          total_active_client_count := s.total_active_client_count + 1 } with hs'
      have hwf' : WFStates s'.shared_client_states := wf_setClientState _ _ _ hwf
      have hmem' : ∀ q ∈ ps, q ∈ inactiveClients s'.shared_client_states := by
        intro q hq
        exact mem_inactiveClients_set_of_ne true (hmem q (List.mem_cons_of_mem _ hq))
          (fun hqp => hnd.1 (hqp ▸ hq))
      have hcount : activeClientCount s'.shared_client_states
          = activeClientCount s.shared_client_states + 1 := by
        have : p = (p.1, p.2) := rfl
        exact activeClientCount_set_true hwf (this ▸ hp)
      have htot : totalEntryCount s'.shared_client_states
          = totalEntryCount s.shared_client_states := totalEntryCount_setClientState _ _ _ _
      obtain ⟨ih1, ih2, ih3, ih4, ih5, ih6, ih7, ih8, ih9⟩ := ih s' (a + 1) hwf' hnd.2 hmem'
      have hmin : min (maxAdd - a).toNat (p :: ps).length
          = min (maxAdd - (a + 1)).toNat ps.length + 1 := by
        simp only [List.length_cons]
        omega
      rw [hmin]
      refine ⟨by omega, ?_, ?_, ih4, by rw [ih5, htot], ih6, ih7, ih8, ih9⟩
      · rw [ih2]
        simp only [hs']
        push_cast
        ring
      · rw [ih3, hcount]
        omega

/-! ## Full behavioural lemmas for `scale_down` and `scale_up` -/

theorem ceil_eq_one_of (x : ℚ) (h1 : 0 < x) (h2 : x ≤ 1) : ⌈x⌉ = 1 := by
  rw [Int.ceil_eq_iff]
  constructor <;> push_cast <;> linarith

theorem scale_down_full (s : FeedbackActorState) (sampleIdx : List Nat)
    (hwf : WFStates s.shared_client_states)
    (hinv : s.total_active_client_count = (activeClientCount s.shared_client_states : Int))
    (hnd : sampleIdx.Nodup)
    (hlt : ∀ i ∈ sampleIdx, i < activeClientCount s.shared_client_states)
    (hlen : (min ⌈(activeClientCount s.shared_client_states : ℚ)
                * s.percentage_clients_to_scale_down⌉
              (activeClientCount s.shared_client_states : Int)).toNat ≤ sampleIdx.length) :
    (scale_down s sampleIdx).max_error_threshold
        = (activeClientCount s.shared_client_states : Int) ∧
    activeClientCount (scale_down s sampleIdx).shared_client_states
        = activeClientCount s.shared_client_states
          - (min ⌈(activeClientCount s.shared_client_states : ℚ)
                  * s.percentage_clients_to_scale_down⌉
              (activeClientCount s.shared_client_states : Int)).toNat ∧
    (scale_down s sampleIdx).total_active_client_count
        = (activeClientCount s.shared_client_states : Int)
          - ((min ⌈(activeClientCount s.shared_client_states : ℚ)
                  * s.percentage_clients_to_scale_down⌉
              (activeClientCount s.shared_client_states : Int)).toNat : Int) ∧
    (scale_down s sampleIdx).fstate = FeedbackState.sleep ∧
    (scale_down s sampleIdx).error_queue = [] ∧
    WFStates (scale_down s sampleIdx).shared_client_states ∧
    totalEntryCount (scale_down s sampleIdx).shared_client_states
        = totalEntryCount s.shared_client_states ∧
    (scale_down s sampleIdx).total_client_count = s.total_client_count := by
  have hcast : ((s.total_active_client_count : ℚ))
      = ((activeClientCount s.shared_client_states : Nat) : ℚ) := by
    rw [hinv]; push_cast; ring
  have hkk : (allActiveClients s.shared_client_states).length
      = activeClientCount s.shared_client_states := rfl
  unfold scale_down
  dsimp only
  rw [hcast, hinv, hkk]
  set k := activeClientCount s.shared_client_states with hk
  set ctp : Int := ⌈(k : ℚ) * s.percentage_clients_to_scale_down⌉ with hctp
  by_cases hc : ctp ≤ 0
  · rw [if_pos hc]
    have hmin : min ctp (k : Int) = ctp := min_eq_left (le_trans hc (by positivity))
    have : (min ctp (k : Int)).toNat = 0 := by rw [hmin]; omega
    rw [this]
    refine ⟨rfl, by simp, by simp [hinv], rfl, rfl, hwf, rfl, rfl⟩
  · rw [if_neg hc]
    set l := allActiveClients s.shared_client_states with hl
    set n := (min ctp (k : Int)).toNat with hn
    have hnle : n ≤ sampleIdx.length := hlen
    have htake_nd : (sampleIdx.take n).Nodup := hnd.sublist (List.take_sublist _ _)
    have htake_lt : ∀ i ∈ sampleIdx.take n, i < l.length := by
      intro i hi
      have := hlt i (List.mem_of_mem_take hi)
      omega
    have hchlen : ((sampleIdx.take n).filterMap (fun i => l[i]?)).length = n := by
      rw [length_filterMap_getElem htake_lt, List.length_take]
      omega
    have hchnd : ((sampleIdx.take n).filterMap (fun i => l[i]?)).Nodup :=
      nodup_filterMap_getElem htake_nd htake_lt (nodup_allActiveClients hwf)
    have hchmem : ∀ p ∈ (sampleIdx.take n).filterMap (fun i => l[i]?), p ∈ l :=
      fun p hp => mem_of_mem_filterMap_getElem hp
    obtain ⟨p1, p2, p3, p4, p5, p6⟩ :=
      pauseClients_spec ((sampleIdx.take n).filterMap (fun i => l[i]?))
        { s with total_active_client_count := (k : Int), max_error_threshold := (k : Int) }
        hwf hchnd hchmem
    rw [hchlen] at p1 p2
    dsimp only at p1 p2 p4 p5 ⊢
    rw [← hk] at p1
    refine ⟨p5, by omega, by rw [p2], rfl, rfl, p3, by rw [p4], p6⟩



theorem scale_up_full (s : FeedbackActorState) (probeRand : Bool) (shuffled : List (Nat × Nat))
    (hwf : WFStates s.shared_client_states)
    (hperm : shuffled.Perm (inactiveClients s.shared_client_states)) :
    (scale_up s probeRand shuffled).fstate = FeedbackState.neutral ∧
    WFStates (scale_up s probeRand shuffled).shared_client_states ∧
    totalEntryCount (scale_up s probeRand shuffled).shared_client_states
      = totalEntryCount s.shared_client_states ∧
    (scale_up s probeRand shuffled).total_client_count = s.total_client_count ∧
    (scale_up s probeRand shuffled).max_error_threshold = s.max_error_threshold ∧
    (∃ d : Nat,
      (scale_up s probeRand shuffled).total_active_client_count
          = s.total_active_client_count + d ∧
      activeClientCount (scale_up s probeRand shuffled).shared_client_states
          = activeClientCount s.shared_client_states + d) ∧
    (¬ min s.num_clients_to_scale_up (s.max_error_threshold - s.total_active_client_count) ≤ 0 →
      (scale_up s probeRand shuffled).total_active_client_count
        = s.total_active_client_count
          + min (min s.num_clients_to_scale_up
                  (s.max_error_threshold - s.total_active_client_count)).toNat
              shuffled.length) ∧
    (min s.num_clients_to_scale_up (s.max_error_threshold - s.total_active_client_count) ≤ 0 →
      (probeRand || decide (s.probe_interval ≤ s.cycles_since_probe + 1)) = true →
      (scale_up s probeRand shuffled).total_active_client_count
        = s.total_active_client_count + min 1 shuffled.length) ∧
    (min s.num_clients_to_scale_up (s.max_error_threshold - s.total_active_client_count) ≤ 0 →
      (probeRand || decide (s.probe_interval ≤ s.cycles_since_probe + 1)) = false →
      (scale_up s probeRand shuffled).total_active_client_count
        = s.total_active_client_count) := by
  have hnd : shuffled.Nodup := hperm.nodup_iff.mpr (nodup_inactiveClients hwf)
  have hmem : ∀ q ∈ shuffled, q ∈ inactiveClients s.shared_client_states :=
    fun q hq => hperm.subset hq
  rw [scale_up]
  dsimp only
  by_cases hle : min s.num_clients_to_scale_up
      (s.max_error_threshold - s.total_active_client_count) ≤ 0
  · rw [if_pos hle]
    by_cases hpr : (probeRand || decide (s.probe_interval ≤ s.cycles_since_probe + 1)) = true
    · rw [hpr, if_pos rfl]
      set s1 : FeedbackActorState :=
        { s with
          cycles_since_probe :=
            if s.probe_interval ≤ s.cycles_since_probe + 1 then 0
            else s.cycles_since_probe + 1 } with hs1
      obtain ⟨q1, q2, q3, q4, q5, q6, q7, q8, q9⟩ :=
        activateFold_spec shuffled 1 s1 0 hwf hnd hmem
      have e1 : s1.total_active_client_count = s.total_active_client_count := rfl
      have e2 : s1.shared_client_states = s.shared_client_states := rfl
      have e3 : s1.max_error_threshold = s.max_error_threshold := rfl
      have e4 : s1.total_client_count = s.total_client_count := rfl
      rw [activateClients] at *
      rw [e1] at q2
      rw [e2] at q3 q5
      rw [e3] at q6
      rw [e4] at q8
      refine ⟨rfl, q4, q5, q8, q6, ⟨min 1 shuffled.length, by omega, by omega⟩,
        fun hc => absurd hle hc, fun _ _ => by omega, fun _ hc => by cases hc⟩
    · rw [Bool.not_eq_true] at hpr
      rw [hpr, if_neg (by simp)]
      refine ⟨rfl, hwf, rfl, rfl, rfl, ⟨0, by simp, by simp⟩,
        fun hc => absurd hle hc, fun _ hc => (by cases hc), fun _ _ => rfl⟩
  · rw [if_neg hle]
    obtain ⟨q1, q2, q3, q4, q5, q6, q7, q8, q9⟩ :=
      activateFold_spec shuffled
        (min s.num_clients_to_scale_up (s.max_error_threshold - s.total_active_client_count))
        s 0 hwf hnd hmem
    rw [activateClients] at *
    refine ⟨rfl, q4, q5, q8, q6,
      ⟨min (min s.num_clients_to_scale_up
          (s.max_error_threshold - s.total_active_client_count)).toNat shuffled.length,
        by omega, by omega⟩,
      fun _ => by omega, fun hc => absurd hc hle, fun hc => absurd hc hle⟩

/-- The counter invariant holds right after `StartFeedbackActor`: the
coordinator initialises every client entry to false and the counter is 0. -/
theorem counterInvariant_startFeedbackActor (assignments : List (Nat × List Nat)) :
    CounterInvariant (startFeedbackActor assignments) := by
  constructor
  · show (0 : Int) = _
    have : activeClientCount (initSharedClientStates assignments) = 0 := by
      induction assignments with
      | nil => rfl
      | cons a rest ih =>
        rw [initSharedClientStates] at ih ⊢
        rw [List.map_cons, activeClientCount_cons, ih]
        simp [List.filter_map]
    rw [startFeedbackActor]
    dsimp only
    rw [this]
    rfl
  · rfl

/-- C10: `total_active_client_count` equals the number of true entries in
`shared_client_states`: it holds after `StartFeedbackActor` and is preserved
by `scale_down` and `scale_up` (given well-formed dicts and the guarantees of
`random.sample`/`random.shuffle`), so the counter is never negative and never
exceeds `total_client_count`. -/
theorem feedback_counter_invariant_spec (assignments : List (Nat × List Nat))
    (s : FeedbackActorState) (sampleIdx : List Nat) (probeRand : Bool)
    (shuffled : List (Nat × Nat))
    (hwf : WFStates s.shared_client_states)
    (hinv : CounterInvariant s)
    (hnd : sampleIdx.Nodup)
    (hlt : ∀ i ∈ sampleIdx, i < activeClientCount s.shared_client_states)
    (hlen : (min ⌈(activeClientCount s.shared_client_states : ℚ)
                * s.percentage_clients_to_scale_down⌉
              (activeClientCount s.shared_client_states : Int)).toNat ≤ sampleIdx.length)
    (hperm : shuffled.Perm (inactiveClients s.shared_client_states)) :
    CounterInvariant (startFeedbackActor assignments) ∧
    (CounterInvariant (scale_down s sampleIdx) ∧
      WFStates (scale_down s sampleIdx).shared_client_states) ∧
    (CounterInvariant (scale_up s probeRand shuffled) ∧
      WFStates (scale_up s probeRand shuffled).shared_client_states) ∧
    0 ≤ s.total_active_client_count ∧
    s.total_active_client_count ≤ (s.total_client_count : Int) := by
  obtain ⟨hinv1, hinv2⟩ := hinv
  refine ⟨counterInvariant_startFeedbackActor assignments, ?_, ?_, ?_, ?_⟩
  · obtain ⟨p1, p2, p3, _, _, p6, p7, p8⟩ := scale_down_full s sampleIdx hwf hinv1 hnd hlt hlen
    have hflips : (min ⌈(activeClientCount s.shared_client_states : ℚ)
            * s.percentage_clients_to_scale_down⌉
          (activeClientCount s.shared_client_states : Int)).toNat
        ≤ activeClientCount s.shared_client_states := by omega
    refine ⟨⟨?_, ?_⟩, p6⟩
    · rw [p2, p3]
      omega
    · rw [p8, hinv2, p7]
  · obtain ⟨_, q2, q3, q4, _, ⟨d, hd1, hd2⟩, _, _, _⟩ :=
      scale_up_full s probeRand shuffled hwf hperm
    refine ⟨⟨?_, ?_⟩, q2⟩
    · rw [hd1, hd2, hinv1]
      push_cast
      ring
    · rw [q4, hinv2, q3]
  · rw [hinv1]
    positivity
  · rw [hinv1, hinv2]
    have := activeClientCount_le_totalEntryCount s.shared_client_states
    omega

/-! ## Claims C1, C2, C3, C10: the redline feedback loop -/

/-- C1 (amended): a redline scale-down triggered with `k` currently-active
clients and scale-down percentage `p` flips exactly `min ⌈k·p⌉ k` active
`(worker, client)` pairs to false; after the operation `max_error_threshold`
equals the active client count *before* the decrement (i.e. `k`), the state
becomes `sleep`, and the error queue is cleared. -/
theorem scale_down_spec (s : FeedbackActorState) (sampleIdx : List Nat)
    (hwf : WFStates s.shared_client_states)
    (hinv : s.total_active_client_count = (activeClientCount s.shared_client_states : Int))
    (hnd : sampleIdx.Nodup)
    (hlt : ∀ i ∈ sampleIdx, i < activeClientCount s.shared_client_states)
    (hlen : (min ⌈(activeClientCount s.shared_client_states : ℚ)
                * s.percentage_clients_to_scale_down⌉
              (activeClientCount s.shared_client_states : Int)).toNat ≤ sampleIdx.length) :
    (scale_down s sampleIdx).max_error_threshold
        = (activeClientCount s.shared_client_states : Int) ∧
    activeClientCount (scale_down s sampleIdx).shared_client_states
        = activeClientCount s.shared_client_states
          - (min ⌈(activeClientCount s.shared_client_states : ℚ)
                  * s.percentage_clients_to_scale_down⌉
              (activeClientCount s.shared_client_states : Int)).toNat ∧
    (scale_down s sampleIdx).total_active_client_count
        = (activeClientCount s.shared_client_states : Int)
          - ((min ⌈(activeClientCount s.shared_client_states : ℚ)
                  * s.percentage_clients_to_scale_down⌉
              (activeClientCount s.shared_client_states : Int)).toNat : Int) ∧
    (scale_down s sampleIdx).fstate = FeedbackState.sleep ∧
    (scale_down s sampleIdx).error_queue = [] := by
  obtain ⟨p1, p2, p3, p4, p5, _, _, _⟩ := scale_down_full s sampleIdx hwf hinv hnd hlt hlen
  exact ⟨p1, p2, p3, p4, p5⟩

/-- C1 counterexample: starting from 10 active clients with percentage 0.10,
`scale_down` pauses 1 client (active count becomes 9) but sets
`max_error_threshold` to 10, the count *before* the decrement — refuting the
claim that `max_error_threshold` equals the count after the decrement. -/
theorem scale_down_threshold_counterexample :
    (scale_down exampleRedlineState [0]).max_error_threshold = 10 ∧
    (scale_down exampleRedlineState [0]).total_active_client_count = 9 ∧
    activeClientCount (scale_down exampleRedlineState [0]).shared_client_states = 9 ∧
    (scale_down exampleRedlineState [0]).fstate = FeedbackState.sleep ∧
    (scale_down exampleRedlineState [0]).max_error_threshold
      ≠ (scale_down exampleRedlineState [0]).total_active_client_count := by
  have h1 : (⌈((10 : Int) : ℚ) * (1/10 : ℚ)⌉ : Int) = 1 := by
    have h : ((10 : Int) : ℚ) * (1/10 : ℚ) = 1 := by norm_num
    rw [h, Int.ceil_one]
  rw [scale_down]
  norm_num [exampleRedlineState, h1]
  all_goals decide

/-- Witness for C1 at a concrete input: 10 active clients, percentage 0.10,
sample index 0. -/
theorem scale_down_spec_witness :
    (scale_down exampleRedlineState [0]).max_error_threshold
        = (activeClientCount exampleRedlineState.shared_client_states : Int) ∧
    activeClientCount (scale_down exampleRedlineState [0]).shared_client_states
        = activeClientCount exampleRedlineState.shared_client_states
          - (min ⌈(activeClientCount exampleRedlineState.shared_client_states : ℚ)
                  * exampleRedlineState.percentage_clients_to_scale_down⌉
              (activeClientCount exampleRedlineState.shared_client_states : Int)).toNat ∧
    (scale_down exampleRedlineState [0]).total_active_client_count
        = (activeClientCount exampleRedlineState.shared_client_states : Int)
          - ((min ⌈(activeClientCount exampleRedlineState.shared_client_states : ℚ)
                  * exampleRedlineState.percentage_clients_to_scale_down⌉
              (activeClientCount exampleRedlineState.shared_client_states : Int)).toNat : Int) ∧
    (scale_down exampleRedlineState [0]).fstate = FeedbackState.sleep ∧
    (scale_down exampleRedlineState [0]).error_queue = [] := by
  apply scale_down_spec
  · exact ⟨by decide, by decide⟩
  · decide
  · decide
  · decide
  · show (min ⌈((10 : Nat) : ℚ) * (1/10 : ℚ)⌉ ((10 : Nat) : Int)).toNat ≤ 1
    have hce : ⌈((10 : Nat) : ℚ) * (1/10 : ℚ)⌉ = 1 := by
      have h : ((10 : Nat) : ℚ) * (1/10 : ℚ) = 1 := by norm_num
      rw [h, Int.ceil_one]
    rw [hce]
    decide

/-- C2 (amended): a `scale_up` call activates at most
`max(0, max_error_threshold - total_active_client_count)` clients, except when
that gap is ≤ 0 and a probe cycle fires (random draw, or every
`probe_interval`-th cycle since the last probe), in which case the number of
activated clients is `min 1 (number of inactive clients)` — exactly one when an
inactive client exists, and zero otherwise. -/
theorem scale_up_spec (s : FeedbackActorState) (probeRand : Bool) (shuffled : List (Nat × Nat))
    (hwf : WFStates s.shared_client_states)
    (hperm : shuffled.Perm (inactiveClients s.shared_client_states))
    (hstep : 0 < s.num_clients_to_scale_up) :
    (¬ (s.max_error_threshold - s.total_active_client_count ≤ 0 ∧
        (probeRand || decide (s.probe_interval ≤ s.cycles_since_probe + 1)) = true) →
      (scale_up s probeRand shuffled).total_active_client_count
          - s.total_active_client_count
        ≤ max 0 (s.max_error_threshold - s.total_active_client_count)) ∧
    ((s.max_error_threshold - s.total_active_client_count ≤ 0 ∧
        (probeRand || decide (s.probe_interval ≤ s.cycles_since_probe + 1)) = true) →
      (scale_up s probeRand shuffled).total_active_client_count
          - s.total_active_client_count
        = min 1 ((inactiveClients s.shared_client_states).length : Int)) := by
  obtain ⟨_, _, _, _, _, _, q7, q8, q9⟩ := scale_up_full s probeRand shuffled hwf hperm
  have hslen := hperm.length_eq
  constructor
  · intro hno
    by_cases hgap : s.max_error_threshold - s.total_active_client_count ≤ 0
    · have hprobe : (probeRand || decide (s.probe_interval ≤ s.cycles_since_probe + 1))
          = false := by
        cases hpp : (probeRand || decide (s.probe_interval ≤ s.cycles_since_probe + 1)) with
        | true => exact absurd ⟨hgap, hpp⟩ hno
        | false => rfl
      have hle : min s.num_clients_to_scale_up
          (s.max_error_threshold - s.total_active_client_count) ≤ 0 :=
        le_trans (min_le_right _ _) hgap
      rw [q9 hle hprobe, sub_self]
      exact le_max_left _ _
    · have hmp : 0 < min s.num_clients_to_scale_up
          (s.max_error_threshold - s.total_active_client_count) :=
        lt_min hstep (by omega)
      have h1 : min s.num_clients_to_scale_up
          (s.max_error_threshold - s.total_active_client_count)
          ≤ s.max_error_threshold - s.total_active_client_count := min_le_right _ _
      rw [q7 (not_le.mpr hmp), max_eq_right (by omega : (0 : Int)
        ≤ s.max_error_threshold - s.total_active_client_count)]
      have h2 : min (min s.num_clients_to_scale_up
          (s.max_error_threshold - s.total_active_client_count)).toNat shuffled.length
          ≤ (min s.num_clients_to_scale_up
            (s.max_error_threshold - s.total_active_client_count)).toNat :=
        Nat.min_le_left _ _
      omega
  · rintro ⟨hgap, hprobe⟩
    have hle : min s.num_clients_to_scale_up
        (s.max_error_threshold - s.total_active_client_count) ≤ 0 :=
      le_trans (min_le_right _ _) hgap
    rw [q8 hle hprobe, hslen, Nat.cast_min]
    push_cast
    rw [add_sub_cancel_left]

/-- C2 counterexample: at the ceiling (gap 0) with every client already
active, a probe cycle fires but activates zero clients, not exactly one. -/
theorem scale_up_probe_counterexample :
    probeCeilingState.max_error_threshold - probeCeilingState.total_active_client_count ≤ 0 ∧
    (false || decide (probeCeilingState.probe_interval
        ≤ probeCeilingState.cycles_since_probe + 1)) = true ∧
    inactiveClients probeCeilingState.shared_client_states = [] ∧
    (scale_up probeCeilingState false []).total_active_client_count
        - probeCeilingState.total_active_client_count = 0 ∧
    (scale_up probeCeilingState false []).total_active_client_count
        - probeCeilingState.total_active_client_count ≠ 1 := by
  decide

/-- Witness for C2 at a concrete input: gap 0, probe cycle firing, one
inactive client, exactly one activation. -/
theorem scale_up_spec_witness :
    probeWitnessState.max_error_threshold - probeWitnessState.total_active_client_count ≤ 0 ∧
    (false || decide (probeWitnessState.probe_interval
        ≤ probeWitnessState.cycles_since_probe + 1)) = true ∧
    (scale_up probeWitnessState false
          (inactiveClients probeWitnessState.shared_client_states)).total_active_client_count
        - probeWitnessState.total_active_client_count
      = min 1 ((inactiveClients probeWitnessState.shared_client_states).length : Int) := by
  refine ⟨by decide, by decide, ?_⟩
  exact (scale_up_spec probeWitnessState false
      (inactiveClients probeWitnessState.shared_client_states)
      ⟨by decide, by decide⟩ (List.Perm.refl _) (by decide)).2 ⟨by decide, by decide⟩

/-- C3: on `ActorExitRequest` the feedback actor reports
`total_active_client_count`, not `max_stable_clients`, as the "maximum stable
client number": after one neutral cycle at 10 active clients and one
scale-down, the reported value is 9 while `max_stable_clients` is 10.  The
field's own comment ("the value we want to return at the end of the test") and
the printed message text indicate `max_stable_clients` was intended. -/
theorem exit_report_uses_active_count :
    receiveMsg_ActorExitRequest_reported
        (scale_down (handle_state_neutral exampleRedlineState) [0]) = 9 ∧
    (scale_down (handle_state_neutral exampleRedlineState) [0]).max_stable_clients = 10 ∧
    receiveMsg_ActorExitRequest_reported
        (scale_down (handle_state_neutral exampleRedlineState) [0])
      ≠ (scale_down (handle_state_neutral exampleRedlineState) [0]).max_stable_clients := by
  have h1 : (⌈((10 : Int) : ℚ) * (1/10 : ℚ)⌉ : Int) = 1 := by
    have h : ((10 : Int) : ℚ) * (1/10 : ℚ) = 1 := by norm_num
    rw [h, Int.ceil_one]
  rw [receiveMsg_ActorExitRequest_reported, handle_state_neutral, scale_down]
  norm_num [exampleRedlineState, h1]
  all_goals decide

/-- Witness for C10 at concrete inputs: two workers with three clients for the
initialisation part, and the one-inactive-client state for the preservation
parts. -/
theorem feedback_counter_invariant_spec_witness :
    CounterInvariant (startFeedbackActor [(0, [0, 1]), (1, [2])]) ∧
    (CounterInvariant (scale_down probeWitnessState [0]) ∧
      WFStates (scale_down probeWitnessState [0]).shared_client_states) ∧
    (CounterInvariant (scale_up probeWitnessState false
        (inactiveClients probeWitnessState.shared_client_states)) ∧
      WFStates (scale_up probeWitnessState false
        (inactiveClients probeWitnessState.shared_client_states)).shared_client_states) ∧
    0 ≤ probeWitnessState.total_active_client_count ∧
    probeWitnessState.total_active_client_count
      ≤ (probeWitnessState.total_client_count : Int) := by
  apply feedback_counter_invariant_spec
  · exact ⟨by decide, by decide⟩
  · exact ⟨by decide, by decide⟩
  · decide
  · decide
  · show (min ⌈((1 : Nat) : ℚ) * (1/10 : ℚ)⌉ ((1 : Nat) : Int)).toNat ≤ 1
    have hce : ⌈((1 : Nat) : ℚ) * (1/10 : ℚ)⌉ = 1 := by
      apply ceil_eq_one_of <;> norm_num
    rw [hce]
    decide
  · exact List.Perm.refl _

/-! ## Claims C4, C9: schedule factory and progress controllers -/

/-- C4 counterexample: a task with no time period, no iterations and no runner
completion signal, whose parameter source is infinite, gets an IterationBased
controller with exactly one iteration — not an unbounded one as claimed. -/
theorem schedule_for_infinite_source_counterexample :
    loop_control_for ⟨none, none, none, none⟩ none true
      = TaskProgressControl.iterationBased 0 (some 1) ∧
    (∀ w : Nat, loop_control_for ⟨none, none, none, none⟩ none true
      ≠ TaskProgressControl.iterationBased w none) := by
  refine ⟨rfl, fun w h => ?_⟩
  rw [show loop_control_for ⟨none, none, none, none⟩ none true
    = TaskProgressControl.iterationBased 0 (some 1) from rfl] at h
  simp at h

/-- C4 (amended): for a task that specifies neither a time period nor
iterations (warmup included) and whose runner exposes no completed signal, the
schedule factory selects an IterationBased controller with exactly one
iteration when the parameter source is infinite, and a TimePeriodBased
controller with no time bound (the parameter source's exhaustion ends the
schedule) when it is finite. -/
theorem schedule_for_default_spec (t : ScheduleTask) (b : Bool)
    (h1 : t.warmup_time_period = none) (h2 : t.time_period = none)
    (h3 : t.warmup_iterations = none) (h4 : t.iterations = none) :
    loop_control_for t none b
      = if b then TaskProgressControl.iterationBased 0 (some 1)
        else TaskProgressControl.timePeriodBased 0 none := by
  obtain ⟨f1, f2, f3, f4⟩ := t
  simp only at h1 h2 h3 h4
  subst h1; subst h2; subst h3; subst h4
  cases b <;> rfl

/-- Witness for C4 at a concrete input: the all-`None` task with an infinite
parameter source. -/
theorem schedule_for_default_spec_witness :
    loop_control_for ⟨none, none, none, none⟩ none true
      = if true then TaskProgressControl.iterationBased 0 (some 1)
        else TaskProgressControl.timePeriodBased 0 none :=
  schedule_for_default_spec ⟨none, none, none, none⟩ true rfl rfl rfl rfl

/-- C9: `IterationBased.__init__` raises exactly when both warmup_iterations
and iterations are given and their sum is zero; every other combination of
non-negative values succeeds. (The code raises `BenchmarkAssertionError`
"Operation must run at least for one iteration"; the spec files it under
configuration errors — either way construction fails fatally.) -/
theorem iteration_based_init_spec (w i : Option Nat) :
    (∃ e, IterationBased_init w i = Except.error e) ↔ (w = some 0 ∧ i = some 0) := by
  match w, i with
  | none, none => simp [IterationBased_init]
  | none, some iv => simp [IterationBased_init]
  | some wv, none => simp [IterationBased_init]
  | some wv, some iv =>
    by_cases h : wv + iv = 0
    · have hw : wv = 0 := by omega
      have hi : iv = 0 := by omega
      subst hw; subst hi
      simp [IterationBased_init]
    · simp only [IterationBased_init, if_neg h]
      constructor
      · rintro ⟨e, he⟩
        cases he
      · rintro ⟨hw, hi⟩
        rw [Option.some.injEq] at hw hi
        omega

/-! ## Claims C6, C7: async executor timing and skipped requests -/

/-- C6: for every completed (non-skipped) request,
`service_time = request_end - request_start`,
`client_processing_time = (client_request_end - client_request_start) - service_time`,
`processing_time = processing_end - processing_start`, and
`latency = request_end - (task_start + scheduled_offset)` when the request was
throughput-throttled (scheduled offset > 0), else `latency = service_time`. -/
theorem process_results_timing_spec (rd : ResultData) (total_start est : ℚ)
    (hsk : rd.request_meta_data.skipped_request = false)
    (hth : rd.throughput_throttled = throughputThrottled est) :
    process_results rd total_start est =
      some { latency := if 0 < est then rd.request_end - (total_start + est)
                        else rd.request_end - rd.request_start,
             service_time := rd.request_end - rd.request_start,
             client_processing_time :=
               (rd.client_request_end - rd.client_request_start)
                 - (rd.request_end - rd.request_start),
             processing_time := rd.processing_end - rd.processing_start,
             time_period := rd.request_end - total_start } := by
  rw [process_results, hsk]
  simp only [Bool.false_eq_true, if_false, hth, throughputThrottled]
  by_cases h : 0 < est <;> simp [h]

/-- Witness for C6 at a concrete input: a throttled request with simple
rational timings. -/
theorem process_results_timing_spec_witness :
    process_results
        ⟨0, 1, 10, 2, 7, 1, 9, 1, "ops", ⟨true, false⟩, true⟩ 0 1 =
      some { latency := if 0 < (1 : ℚ) then (7 : ℚ) - (0 + 1) else (7 : ℚ) - 2,
             service_time := (7 : ℚ) - 2,
             client_processing_time := ((9 : ℚ) - 1) - ((7 : ℚ) - 2),
             processing_time := (10 : ℚ) - 1,
             time_period := (7 : ℚ) - 0 } :=
  process_results_timing_spec ⟨0, 1, 10, 2, 7, 1, 9, 1, "ops", ⟨true, false⟩, true⟩ 0 1
    rfl (by simp [throughputThrottled])

/-- C7: for a scheduled request whose client's shared pause state is false,
`execute_single` does not invoke the runner and returns
`0, "ops", (success := true, skipped_request := true)`, and
`_process_results` emits no timed sample for it. -/
theorem execute_single_skipped_spec (ret : RunnerReturn) (rd : ResultData)
    (total_start est : ℚ)
    (h : rd.request_meta_data = (execute_single false ret).request_meta_data) :
    execute_single false ret
      = ⟨0, "ops", ⟨true, true⟩, false⟩ ∧
    (execute_single false ret).runner_invoked = false ∧
    process_results rd total_start est = none := by
  refine ⟨rfl, rfl, ?_⟩
  rw [process_results, h]
  rfl

/-- Witness for C7 at a concrete input. -/
theorem execute_single_skipped_spec_witness :
    execute_single false RunnerReturn.other
      = ⟨0, "ops", ⟨true, true⟩, false⟩ ∧
    (execute_single false RunnerReturn.other).runner_invoked = false ∧
    process_results ⟨0, 1, 2, 0, 0, 0, 0, 0, "ops", ⟨true, true⟩, false⟩ 0 0 = none :=
  execute_single_skipped_spec RunnerReturn.other
    ⟨0, 1, 2, 0, 0, 0, 0, 0, "ops", ⟨true, true⟩, false⟩ 0 0 rfl

/-! ## Claim C8: throughput calculator ordering -/

theorem sorted_sortByAbsoluteTime (l : List TCSample) :
    List.Sorted (fun a b : TCSample => a.absolute_time ≤ b.absolute_time)
      (sortByAbsoluteTime l) := by
  haveI h1 : IsTotal TCSample (fun a b => a.absolute_time ≤ b.absolute_time) :=
    ⟨fun a b => le_total _ _⟩
  haveI h2 : IsTrans TCSample (fun a b => a.absolute_time ≤ b.absolute_time) :=
    ⟨fun a b c => le_trans⟩
  exact List.sorted_insertionSort _ l

theorem perm_sortByAbsoluteTime (l : List TCSample) : (sortByAbsoluteTime l).Perm l :=
  List.perm_insertionSort _ l

theorem sorted_le_getLast {l : List TCSample}
    (hs : List.Sorted (fun a b : TCSample => a.absolute_time ≤ b.absolute_time) l)
    {x last : TCSample} (hx : x ∈ l) (hl : l.getLast? = some last) :
    x.absolute_time ≤ last.absolute_time := by
  induction l with
  | nil => cases hx
  | cons a as ih =>
    cases as with
    | nil =>
      rcases List.mem_singleton.mp hx with rfl
      rw [List.getLast?_singleton] at hl
      cases hl
      exact le_refl _
    | cons b bs =>
      rw [List.getLast?_cons_cons] at hl
      have hmem : last ∈ b :: bs := by
        have hne : b :: bs ≠ [] := by simp
        rw [List.getLast?_eq_getLast _ hne] at hl
        rw [← Option.some.injEq _ _ |>.mp hl]
        exact List.getLast_mem hne
      rcases List.mem_cons.mp hx with rfl | hx'
      · exact (List.sorted_cons.mp hs).1 last hmem
      · exact ih (List.sorted_cons.mp hs).2 hx' hl

theorem tcLoop_spec (samples : List TCSample) : ∀ (ts : TaskStats) (count : Nat),
    List.Sorted (fun a b : TCSample => a.absolute_time ≤ b.absolute_time) samples →
    List.Pairwise (fun d1 d2 : ThroughputDatum => d1.absolute_time ≤ d2.absolute_time)
        (tcLoop ts count samples).2.2 ∧
    (∀ d ∈ (tcLoop ts count samples).2.2, ∃ smp ∈ samples,
      d.absolute_time = smp.absolute_time ∧ d.relative_time = smp.relative_time) := by
  induction samples with
  | nil => intro ts count _; exact ⟨List.Pairwise.nil, by intro d hd; cases hd⟩
  | cons s rest ih =>
    intro ts count hs
    obtain ⟨hhead, htail⟩ := List.sorted_cons.mp hs
    rw [tcLoop]
    dsimp only
    by_cases hcc : ((ts.maybe_update_sample_type s.sample_type).update_interval
        s.absolute_time).can_calculate_throughput = true
    · rw [if_pos hcc]
      dsimp only
      obtain ⟨ihp, ihm⟩ := ih _ _ htail
      constructor
      · rw [List.pairwise_cons]
        refine ⟨?_, ihp⟩
        intro d hd
        obtain ⟨smp, hsmp, habs, _⟩ := ihm d hd
        rw [habs]
        exact hhead smp hsmp
      · intro d hd
        rcases List.mem_cons.mp hd with rfl | hd'
        · exact ⟨s, List.mem_cons_self _ _, rfl, rfl⟩
        · obtain ⟨smp, hsmp, h1, h2⟩ := ihm d hd'
          exact ⟨smp, List.mem_cons_of_mem _ hsmp, h1, h2⟩
    · rw [if_neg hcc]
      obtain ⟨ihp, ihm⟩ := ih _ _ htail
      refine ⟨ihp, ?_⟩
      intro d hd
      obtain ⟨smp, hsmp, h1, h2⟩ := ihm d hd
      exact ⟨smp, List.mem_cons_of_mem _ hsmp, h1, h2⟩

/-- C8 (amended): within any single `calculate` call on a task, the emitted
throughput data are non-decreasing in `absolute_time`, and each emitted
datum's `absolute_time` and `relative_time` equal those of the sample at which
it was emitted (a sample of this batch or of the unprocessed carry-over).
Across separate calls the ordering can break (see the counterexample). -/
theorem throughput_single_call_spec (stOpt : Option TaskStats) (v : List TCSample) (bi : ℚ) :
    List.Pairwise (fun d1 d2 : ThroughputDatum => d1.absolute_time ≤ d2.absolute_time)
      (calculate1 stOpt v bi).2 ∧
    (∀ d ∈ (calculate1 stOpt v bi).2, ∃ smp,
      (smp ∈ v ∨ ∃ st, stOpt = some st ∧ smp ∈ st.unprocessed) ∧
      d.absolute_time = smp.absolute_time ∧ d.relative_time = smp.relative_time) := by
  match v with
  | [] => exact ⟨List.Pairwise.nil, fun d hd => by cases hd⟩
  | s0 :: v' =>
    have main : ∀ (merged : List TCSample),
        (∀ smp ∈ merged, smp ∈ s0 :: v' ∨ ∃ st, stOpt = some st ∧ smp ∈ st.unprocessed) →
        ∀ (res : Option TaskStats × List ThroughputDatum),
        (let current_samples := sortByAbsoluteTime merged
         let first_sample := current_samples.headD s0
         if first_sample.throughput.isSome then
          (stOpt, current_samples.map
            (fun s => ⟨s.absolute_time, s.relative_time, s.sample_type, s.throughput.getD 0⟩))
         else
          let st0 :=
            match stOpt with
            | some st => st
            | none => initTaskStats bi first_sample.sample_type
                (first_sample.absolute_time - first_sample.time_period)
          let r := tcLoop st0 st0.total_count current_samples
          match current_samples.getLast? with
          | some last =>
            if r.1.can_add_final_throughput_sample then
              let st2 := r.1.finish_bucket r.2.1
              (some st2, r.2.2
                ++ [⟨last.absolute_time, last.relative_time, st2.sample_type, st2.throughput⟩])
            else (some r.1, r.2.2)
          | none => (some r.1, r.2.2)) = res →
        List.Pairwise (fun d1 d2 : ThroughputDatum => d1.absolute_time ≤ d2.absolute_time)
          res.2 ∧
        (∀ d ∈ res.2, ∃ smp,
          (smp ∈ s0 :: v' ∨ ∃ st, stOpt = some st ∧ smp ∈ st.unprocessed) ∧
          d.absolute_time = smp.absolute_time ∧ d.relative_time = smp.relative_time) := by
      intro merged hmem res hres
      have hsortmem : ∀ smp ∈ sortByAbsoluteTime merged,
          smp ∈ s0 :: v' ∨ ∃ st, stOpt = some st ∧ smp ∈ st.unprocessed :=
        fun smp hs => hmem smp ((perm_sortByAbsoluteTime merged).mem_iff.mp hs)
      have hsorted := sorted_sortByAbsoluteTime merged
      dsimp only at hres
      by_cases hth : ((sortByAbsoluteTime merged).headD s0).throughput.isSome = true
      · rw [if_pos hth] at hres
        subst hres
        constructor
        · exact List.Pairwise.map _ (fun a b h => h) hsorted
        · intro d hd
          obtain ⟨smp, hsmp, rfl⟩ := List.mem_map.mp hd
          exact ⟨smp, hsortmem smp hsmp, rfl, rfl⟩
      · rw [if_neg hth] at hres
        obtain ⟨hlp, hlm⟩ := tcLoop_spec (sortByAbsoluteTime merged) _ _ hsorted
        split at hres
        next last hgl =>
          split at hres
          next hfin =>
            subst hres
            have hlastmem : last ∈ sortByAbsoluteTime merged := by
              have hne : sortByAbsoluteTime merged ≠ [] := by
                intro hnil
                rw [hnil] at hgl
                cases hgl
              rw [List.getLast?_eq_getLast _ hne] at hgl
              rw [← Option.some.injEq _ _ |>.mp hgl]
              exact List.getLast_mem hne
            constructor
            · rw [List.pairwise_append]
              refine ⟨hlp, List.pairwise_singleton _ _, ?_⟩
              intro a ha b hb
              rcases List.mem_singleton.mp hb with rfl
              obtain ⟨smp, hsmp, h1, _⟩ := hlm a ha
              rw [h1]
              exact sorted_le_getLast hsorted hsmp hgl
            · intro d hd
              rcases List.mem_append.mp hd with hd' | hd'
              · obtain ⟨smp, hsmp, h1, h2⟩ := hlm d hd'
                exact ⟨smp, hsortmem smp hsmp, h1, h2⟩
              · rcases List.mem_singleton.mp hd' with rfl
                exact ⟨last, hsortmem last hlastmem, rfl, rfl⟩
          next hfin =>
            subst hres
            refine ⟨hlp, fun d hd => ?_⟩
            obtain ⟨smp, hsmp, h1, h2⟩ := hlm d hd
            exact ⟨smp, hsortmem smp hsmp, h1, h2⟩
        next hgl =>
          subst hres
          refine ⟨hlp, fun d hd => ?_⟩
          obtain ⟨smp, hsmp, h1, h2⟩ := hlm d hd
          exact ⟨smp, hsortmem smp hsmp, h1, h2⟩
    cases stOpt with
    | none =>
      exact main (s0 :: v') (fun smp hs => Or.inl hs) _ rfl
    | some st =>
      refine main ((s0 :: v') ++ st.unprocessed) ?_ _ rfl
      intro smp hs
      rcases List.mem_append.mp hs with h | h
      · exact Or.inl h
      · exact Or.inr ⟨st, rfl, h⟩

/-- C8 counterexample: across two `calculate` calls on the same task, the
second call emits a bucket at absolute time 3/2 after the first call emitted
one at absolute time 2 — the emitted throughput data of a task are NOT
non-decreasing in `absolute_time` across calls (a late-arriving normal-phase
sample triggers the below-interval final emission). -/
theorem throughput_cross_call_counterexample :
    ((calculate1 none [tcCall1Sample] 1).2.map ThroughputDatum.absolute_time = [2]) ∧
    (((calculate1 (calculate1 none [tcCall1Sample] 1).1 [tcCall2Sample] 1).2.map
        ThroughputDatum.absolute_time) = [3/2]) ∧
    ¬ List.Pairwise (fun d1 d2 : ThroughputDatum => d1.absolute_time ≤ d2.absolute_time)
        ((calculate1 none [tcCall1Sample] 1).2
          ++ (calculate1 (calculate1 none [tcCall1Sample] 1).1 [tcCall2Sample] 1).2) := by
  have hfl : (⌊(2 : ℚ)⌋ : Int) = 2 := by
    rw [show (2 : ℚ) = ((2 : Int) : ℚ) by norm_num, Int.floor_intCast]
  have h1 : calculate1 none [tcCall1Sample] 1 =
      (some { unprocessed := [], total_count := 1, interval := 2, bucket_interval := 1,
              bucket := 3, sample_type := 0, has_samples_in_sample_type := true,
              start_time := 0 },
       [⟨2, 2, 0, 1/2⟩]) := by
    rw [calculate1]
    norm_num [sortByAbsoluteTime, List.insertionSort, tcCall1Sample, initTaskStats, tcLoop,
      TaskStats.maybe_update_sample_type, TaskStats.update_interval,
      TaskStats.can_calculate_throughput, TaskStats.finish_bucket,
      TaskStats.can_add_final_throughput_sample, TaskStats.throughput, pyInt,
      TCSample.relative_time, hfl]
  have h2 : calculate1 (some ⟨[], 1, 2, 1, 3, 0, true, 0⟩) [tcCall2Sample] 1 =
      (some { unprocessed := [], total_count := 2, interval := 2, bucket_interval := 1,
              bucket := 3, sample_type := 1, has_samples_in_sample_type := true,
              start_time := 0 },
       [⟨3/2, 3/2, 1, 1⟩]) := by
    rw [calculate1]
    norm_num [sortByAbsoluteTime, List.insertionSort, tcCall2Sample, initTaskStats, tcLoop,
      TaskStats.maybe_update_sample_type, TaskStats.update_interval,
      TaskStats.can_calculate_throughput, TaskStats.finish_bucket,
      TaskStats.can_add_final_throughput_sample, TaskStats.throughput, pyInt,
      TCSample.relative_time, hfl]
  rw [h1, h2]
  refine ⟨by norm_num, by norm_num, ?_⟩
  intro hp
  dsimp only at hp
  rw [List.cons_append, List.nil_append, List.pairwise_cons] at hp
  have := hp.1 ⟨3/2, 3/2, 1, 1⟩ (by simp)
  norm_num at this

/-! ## Claim C5: the allocation matrix -/

theorem length_appendAt (rows : List (List Allocation)) (i : Nat) (a : Allocation) :
    (appendAt rows i a).length = rows.length := by
  induction rows generalizing i with
  | nil => rfl
  | cons r rs ih =>
    cases i with
    | zero => rfl
    | succ i => simp [appendAt, ih]

theorem getElem?_appendAt (rows : List (List Allocation)) (i : Nat) (a : Allocation) (j : Nat) :
    (appendAt rows i a)[j]? = if i = j then (rows[j]?).map (fun r => r ++ [a]) else rows[j]? := by
  induction rows generalizing i j with
  | nil => simp [appendAt]
  | cons r rs ih =>
    cases i with
    | zero =>
      cases j with
      | zero => simp [appendAt]
      | succ j => simp [appendAt]
    | succ i =>
      cases j with
      | zero => simp [appendAt]
      | succ j =>
        simp only [appendAt, List.getElem?_cons_succ]
        rw [ih]
        by_cases h : i = j
        · subst h
          simp
        · rw [if_neg h, if_neg (by omega)]

theorem appendFold_spec (I : List Nat) (e : Nat → Allocation) (g : Nat → Nat)
    (rows : List (List Allocation)) :
    (I.foldl (fun rws i => appendAt rws (g i) (e i)) rows).length = rows.length ∧
    ∀ j, j < rows.length →
      ∃ l : List Allocation,
        (I.foldl (fun rws i => appendAt rws (g i) (e i)) rows)[j]?
            = (rows[j]?).map (fun r => r ++ l) ∧
        l.length = (I.filter (fun i => g i = j)).length ∧
        ∀ x ∈ l, ∃ i ∈ I, x = e i := by
  induction I generalizing rows with
  | nil =>
    refine ⟨rfl, fun j hj => ⟨[], by simp, by simp, by intro x hx; cases hx⟩⟩
  | cons i is ih =>
    rw [List.foldl_cons]
    obtain ⟨ihl, ihe⟩ := ih (appendAt rows (g i) (e i))
    rw [length_appendAt] at ihl ihe
    refine ⟨ihl, fun j hj => ?_⟩
    obtain ⟨l, hl1, hl2, hl3⟩ := ihe j hj
    rw [getElem?_appendAt] at hl1
    by_cases hgi : g i = j
    · rw [if_pos hgi] at hl1
      refine ⟨[e i] ++ l, ?_, ?_, ?_⟩
      · rw [hl1]
        cases hrj : rows[j]? with
        | none => rfl
        | some r => simp
      · simp only [List.filter_cons, hgi]
        simp [hl2]
      · intro x hx
        rcases List.mem_append.mp hx with hx' | hx'
        · rcases List.mem_singleton.mp hx' with rfl
          exact ⟨i, List.mem_cons_self _ _, rfl⟩
        · obtain ⟨i', hi', he'⟩ := hl3 x hx'
          exact ⟨i', List.mem_cons_of_mem _ hi', he'⟩
    · rw [if_neg hgi] at hl1
      refine ⟨l, hl1, ?_, ?_⟩
      · simp only [List.filter_cons]
        rw [if_neg (by simpa using hgi)]
        exact hl2
      · intro x hx
        obtain ⟨i', hi', he'⟩ := hl3 x hx
        exact ⟨i', List.mem_cons_of_mem _ hi', he'⟩

theorem succ_mod_div (m S : Nat) (hm : 0 < m) :
    ((S + 1) % m = (if S % m + 1 = m then 0 else S % m + 1)) ∧
    ((S + 1) / m = (if S % m + 1 = m then S / m + 1 else S / m)) := by
  have hdm := Nat.div_add_mod S m
  have hlt : S % m < m := Nat.mod_lt _ hm
  by_cases h : S % m + 1 = m
  · rw [if_pos h, if_pos h]
    have hS : S + 1 = m * (S / m) + m := by omega
    have hS2 : m * (S / m) + m = m * (S / m + 1) := by ring
    rw [hS, hS2]
    constructor
    · exact Nat.mul_mod_right _ _
    · exact Nat.mul_div_cancel_left _ hm
  · rw [if_neg h, if_neg h]
    have hS : S + 1 = (S % m + 1) + m * (S / m) := by omega
    have hlt2 : S % m + 1 < m := by omega
    constructor
    · rw [hS, Nat.add_mul_mod_self_left, Nat.mod_eq_of_lt hlt2]
    · rw [hS, Nat.add_mul_div_left _ _ hm, Nat.div_eq_of_lt hlt2, Nat.zero_add]

theorem cnt_range'_mod (m j : Nat) (hm : 0 < m) (hj : j < m) :
    ∀ S, ((List.range' 0 S).filter (fun i => i % m = j)).length
      = S / m + (if j < S % m then 1 else 0)
  | 0 => by simp
  | S + 1 => by
    rw [List.range'_concat, List.filter_append, List.length_append,
      cnt_range'_mod m j hm hj S]
    obtain ⟨hmod, hdiv⟩ := succ_mod_div m S hm
    rw [hmod, hdiv]
    have hlt : S % m < m := Nat.mod_lt _ hm
    have hfil : (List.filter (fun i => i % m = j) [0 + 1 * S]).length
        = if S % m = j then 1 else 0 := by
      simp only [Nat.zero_add, Nat.one_mul, List.filter_cons, List.filter_nil]
      by_cases h : S % m = j
      · rw [if_pos (by simpa using h), if_pos h]
        rfl
      · rw [if_neg (by simpa using h), if_neg h]
        rfl
    rw [hfil]
    split_ifs <;> omega

theorem cnt_range'_eq (a k j : Nat) :
    ((List.range' a k).filter (fun i => i = j)).length
      = if a ≤ j ∧ j < a + k then 1 else 0 := by
  induction k with
  | zero =>
    rw [if_neg (by omega)]
    simp
  | succ k ih =>
    rw [List.range'_concat, List.filter_append, List.length_append, ih]
    have hfil : (List.filter (fun i => i = j) [a + 1 * k]).length
        = if a + k = j then 1 else 0 := by
      simp only [Nat.one_mul, List.filter_cons, List.filter_nil]
      by_cases h : a + k = j
      · rw [if_pos (by simpa using h), if_pos h]
        rfl
      · rw [if_neg (by simpa using h), if_neg h]
        rfl
    rw [hfil]
    split_ifs <;> omega

theorem allocSubTask_spec (rows : List (List Allocation)) (m start : Nat) (st : SubTask)
    (gc : Nat) :
    (allocSubTask rows m start st gc).length = rows.length ∧
    ∀ j, j < rows.length →
      ∃ l, (allocSubTask rows m start st gc)[j]? = (rows[j]?).map (fun r => r ++ l) ∧
        l.length = ((List.range' start st.clients).filter (fun i => i % m = j)).length ∧
        ∀ x ∈ l, jpId x = none := by
  obtain ⟨h1, h2⟩ := appendFold_spec (List.range' start st.clients)
    (fun ci => Allocation.taskAlloc st (ci - start) ci gc) (fun ci => ci % m) rows
  rw [allocSubTask]
  refine ⟨h1, fun j hj => ?_⟩
  obtain ⟨l, hl1, hl2, hl3⟩ := h2 j hj
  refine ⟨l, hl1, hl2, fun x hx => ?_⟩
  obtain ⟨i, _, rfl⟩ := hl3 x hx
  rfl

theorem subtasksFold_spec (m gc : Nat) (sts : List SubTask) :
    ∀ (rows : List (List Allocation)) (a : Nat) (acc : List Nat),
    ((sts.foldl (fun acc2 st =>
        (allocSubTask acc2.1 m acc2.2.1 st gc, acc2.2.1 + st.clients,
         acc2.2.2 ++ completingOf m acc2.2.1 st)) (rows, a, acc)).2.1
      = a + (sts.map SubTask.clients).sum) ∧
    ((sts.foldl (fun acc2 st =>
        (allocSubTask acc2.1 m acc2.2.1 st gc, acc2.2.1 + st.clients,
         acc2.2.2 ++ completingOf m acc2.2.1 st)) (rows, a, acc)).1.length = rows.length) ∧
    ∀ j, j < rows.length →
      ∃ l, (sts.foldl (fun acc2 st =>
          (allocSubTask acc2.1 m acc2.2.1 st gc, acc2.2.1 + st.clients,
           acc2.2.2 ++ completingOf m acc2.2.1 st)) (rows, a, acc)).1[j]?
          = (rows[j]?).map (fun r => r ++ l) ∧
        l.length = ((List.range' a (sts.map SubTask.clients).sum).filter
            (fun i => i % m = j)).length ∧
        ∀ x ∈ l, jpId x = none := by
  induction sts with
  | nil =>
    intro rows a acc
    refine ⟨by simp, rfl, fun j hj => ⟨[], ?_, by simp, by intro x hx; cases hx⟩⟩
    cases hrj : rows[j]? with
    | none => rw [List.getElem?_eq_none_iff] at hrj; omega
    | some r => simp [hrj]
  | cons st rest ih =>
    intro rows a acc
    rw [List.foldl_cons]
    dsimp only
    obtain ⟨s1, s2⟩ := allocSubTask_spec rows m a st gc
    obtain ⟨i1, i2, i3⟩ := ih (allocSubTask rows m a st gc) (a + st.clients)
      (acc ++ completingOf m a st)
    rw [s1] at i2 i3
    refine ⟨by rw [i1]; simp; ring, by rw [i2], fun j hj => ?_⟩
    obtain ⟨l1, hl1, hl1len, hl1jp⟩ := s2 j hj
    obtain ⟨l2, hl2, hl2len, hl2jp⟩ := i3 j hj
    refine ⟨l1 ++ l2, ?_, ?_, ?_⟩
    · rw [hl2, hl1]
      cases hrj : rows[j]? with
      | none => rfl
      | some r => simp
    · rw [List.length_append, hl1len, hl2len]
      have hr : List.range' a st.clients ++ List.range' (a + st.clients)
          (rest.map SubTask.clients).sum
          = List.range' a ((rest.map SubTask.clients).sum + st.clients) := by
        have := List.range'_append a st.clients (rest.map SubTask.clients).sum 1
        simpa using this
      have hsum : ((st :: rest).map SubTask.clients).sum
          = (rest.map SubTask.clients).sum + st.clients := by
        simp [Nat.add_comm]
      rw [hsum, ← hr, List.filter_append, List.length_append]
    · intro x hx
      rcases List.mem_append.mp hx with h | h
      · exact hl1jp x h
      · exact hl2jp x h

theorem padRows_spec (rows : List (List Allocation)) (m start : Nat) (hm : 0 < m)
    (hlen : rows.length = m) :
    (padRows rows m start).length = rows.length ∧
    ∀ j, j < rows.length →
      ∃ l, (padRows rows m start)[j]? = (rows[j]?).map (fun r => r ++ l) ∧
        l.length = (if 0 < start % m ∧ start % m ≤ j ∧ j < m then 1 else 0) ∧
        ∀ x ∈ l, jpId x = none := by
  rw [padRows]
  by_cases h : start % m > 0
  · rw [if_pos h]
    obtain ⟨h1, h2⟩ := appendFold_spec (List.range' (start % m) (m - start % m))
      (fun _ => Allocation.padNone) (fun ci => ci) rows
    refine ⟨h1, fun j hj => ?_⟩
    obtain ⟨l, hl1, hl2, hl3⟩ := h2 j hj
    refine ⟨l, hl1, ?_, fun x hx => ?_⟩
    · rw [hl2, cnt_range'_eq]
      have hsm : start % m < m := Nat.mod_lt _ hm
      have : start % m + (m - start % m) = m := by omega
      rw [this]
      split_ifs <;> omega
    · obtain ⟨i, _, rfl⟩ := hl3 x hx
      rfl
  · rw [if_neg h]
    refine ⟨rfl, fun j hj => ⟨[], ?_, ?_, by intro x hx; cases hx⟩⟩
    · cases hrj : rows[j]? with
      | none => rw [List.getElem?_eq_none_iff] at hrj; omega
      | some r => simp [hrj]
    · rw [if_neg (by omega)]
      rfl

theorem allocGroup_spec (g : TaskGroup) (m jid : Nat) (hm : 0 < m)
    (rows : List (List Allocation)) (hlen : rows.length = m) :
    (allocGroup rows m jid g).length = m ∧
    ∃ comp T, ∀ j, j < m →
      ∃ row l, rows[j]? = some row ∧
        (allocGroup rows m jid g)[j]? = some (row ++ (l ++ [Allocation.joinPoint jid comp])) ∧
        l.length = T ∧ (∀ x ∈ l, jpId x = none) := by
  simp only [allocGroup, allocGroupSubTasks]
  obtain ⟨f1, f2, f3⟩ := subtasksFold_spec m g.clients g.subtasks rows 0 []
  set F := g.subtasks.foldl (fun acc2 st =>
      (allocSubTask acc2.1 m acc2.2.1 st g.clients, acc2.2.1 + st.clients,
       acc2.2.2 ++ completingOf m acc2.2.1 st)) (rows, 0, []) with hF
  obtain ⟨p1, p2⟩ := padRows_spec F.1 m F.2.1 hm (by rw [f2, hlen])
  set S := (g.subtasks.map SubTask.clients).sum with hS
  have hS1 : F.2.1 = S := by rw [f1]; simp
  constructor
  · rw [List.length_map, p1, f2, hlen]
  · refine ⟨F.2.2, S / m + (if 0 < S % m then 1 else 0), fun j hj => ?_⟩
    have hj' : j < rows.length := by omega
    obtain ⟨l1, hl1, hl1len, hl1jp⟩ := f3 j hj'
    obtain ⟨l2, hl2, hl2len, hl2jp⟩ := p2 j (by rw [f2]; omega)
    cases hrj : rows[j]? with
    | none => rw [List.getElem?_eq_none_iff] at hrj; omega
    | some row =>
      rw [hrj] at hl1
      refine ⟨row, l1 ++ l2, rfl, ?_, ?_, ?_⟩
      · rw [List.getElem?_map, hl2, hl1]
        simp
      · rw [List.length_append, hl1len, hl2len, hS1]
        rw [cnt_range'_mod m j hm (by omega)]
        split_ifs <;> omega
      · intro x hx
        rcases List.mem_append.mp hx with hx' | hx'
        · exact hl1jp x hx'
        · exact hl2jp x hx'

theorem allocatorClients_pos (schedule : List TaskGroup) : 0 < allocatorClients schedule := by
  rw [allocatorClients]
  have h : ∀ (l : List TaskGroup) (i : Nat), i ≤ l.foldl (fun mx g => max mx g.clients) i := by
    intro l
    induction l with
    | nil => intro i; exact le_refl _
    | cons g gs ih =>
      intro i
      rw [List.foldl_cons]
      exact le_trans (le_max_left _ _) (ih _)
  exact lt_of_lt_of_le Nat.zero_lt_one (h schedule 1)

theorem allocationsFold_spec (m : Nat) (hm : 0 < m) (schedule : List TaskGroup) :
    ∀ (rows : List (List Allocation)) (jid : Nat) (S : List (Option Nat)) (c : List Nat),
    rows.length = m →
    (∀ j, j < m → ∃ row, rows[j]? = some row ∧ row.map jpId = S ∧
      row.head? = some (Allocation.joinPoint 0 []) ∧
      row.getLast? = some (Allocation.joinPoint (jid - 1) c)) →
    1 ≤ jid →
    S.filterMap id = List.range jid →
    ∃ S' c',
      (schedule.foldl (fun acc g => (allocGroup acc.1 m acc.2 g, acc.2 + 1))
          (rows, jid)).1.length = m ∧
      (∀ j, j < m → ∃ row,
        (schedule.foldl (fun acc g => (allocGroup acc.1 m acc.2 g, acc.2 + 1))
            (rows, jid)).1[j]? = some row ∧
        row.map jpId = S' ∧
        row.head? = some (Allocation.joinPoint 0 []) ∧
        row.getLast? = some (Allocation.joinPoint (jid + schedule.length - 1) c')) ∧
      S'.filterMap id = List.range (jid + schedule.length) := by
  induction schedule with
  | nil =>
    intro rows jid S c hlen hrows hjid hS
    exact ⟨S, c, by simpa using hlen, by simpa using hrows, by simpa using hS⟩
  | cons g gs ih =>
    intro rows jid S c hlen hrows hjid hS
    rw [List.foldl_cons]
    obtain ⟨hg1, comp, T, hg2⟩ := allocGroup_spec g m jid hm rows hlen
    have hrows1 : ∀ j, j < m → ∃ row, (allocGroup rows m jid g)[j]? = some row ∧
        row.map jpId = S ++ (List.replicate T (none : Option Nat) ++ [some jid]) ∧
        row.head? = some (Allocation.joinPoint 0 []) ∧
        row.getLast? = some (Allocation.joinPoint (jid + 1 - 1) comp) := by
      intro j hj
      obtain ⟨row, l, hrj, hgj, hllen, hljp⟩ := hg2 j hj
      obtain ⟨row0, hrj0, hmap0, hhead0, _⟩ := hrows j hj
      have hrow : row0 = row := by
        rw [hrj0] at hrj
        exact Option.some.injEq _ _ |>.mp hrj
      subst hrow
      refine ⟨row0 ++ (l ++ [Allocation.joinPoint jid comp]), hgj, ?_, ?_, ?_⟩
      · rw [List.map_append, hmap0, List.map_append]
        congr 1
        congr 1
        refine List.eq_replicate.mpr ⟨by rw [List.length_map, hllen], ?_⟩
        intro b hb
        obtain ⟨x, hx, rfl⟩ := List.mem_map.mp hb
        exact hljp x hx
      · cases row0 with
        | nil => cases hhead0
        | cons x xs =>
          rw [List.head?_cons] at hhead0
          rw [List.cons_append, List.head?_cons]
          exact hhead0
      · rw [show row0 ++ (l ++ [Allocation.joinPoint jid comp])
            = (row0 ++ l) ++ [Allocation.joinPoint jid comp] by rw [List.append_assoc],
          List.getLast?_concat]
        norm_num
    have hS1 : (S ++ (List.replicate T (none : Option Nat) ++ [some jid])).filterMap id
        = List.range (jid + 1) := by
      rw [List.filterMap_append, List.filterMap_append, hS]
      have h1 : (List.replicate T (none : Option Nat)).filterMap id = [] := by
        refine List.filterMap_eq_nil.mpr (fun a ha => ?_)
        rw [List.eq_of_mem_replicate ha]
        rfl
      rw [h1]
      simp [List.range_succ]
    obtain ⟨S', c', hc1, hc2, hc3⟩ := ih (allocGroup rows m jid g) (jid + 1)
      (S ++ (List.replicate T (none : Option Nat) ++ [some jid])) comp
      (by rw [hg1]) hrows1 (by omega) hS1
    refine ⟨S', c', hc1, ?_, ?_⟩
    · have : jid + 1 + gs.length - 1 = jid + (g :: gs).length - 1 := by
        simp [List.length_cons]
        try omega
      rw [← this]
      exact hc2
    · have : jid + 1 + gs.length = jid + (g :: gs).length := by
        simp [List.length_cons]
        try omega
      rw [← this]
      exact hc3

/-- C5: for every schedule, the allocation matrix is rectangular (all rows
have the same length), every row has the same JoinPoint ids at the same column
positions, every row begins with `JoinPoint(0)`, each row's JoinPoint ids read
`0, 1, …, |groups|` in order (one JoinPoint closing each group), and every row
ends with the JoinPoint of the final group. -/
theorem allocations_rectangular_spec (schedule : List TaskGroup) :
    (allocations schedule).length = allocatorClients schedule ∧
    (∀ row1 ∈ allocations schedule, ∀ row2 ∈ allocations schedule,
      row1.length = row2.length ∧ row1.map jpId = row2.map jpId) ∧
    (∀ row ∈ allocations schedule, row.head? = some (Allocation.joinPoint 0 [])) ∧
    (∀ row ∈ allocations schedule,
      row.filterMap jpId = List.range (schedule.length + 1)) ∧
    (∀ row ∈ allocations schedule, ∃ c,
      row.getLast? = some (Allocation.joinPoint schedule.length c)) := by
  have hm := allocatorClients_pos schedule
  have hbase : ∀ j, j < allocatorClients schedule → ∃ row,
      (List.replicate (allocatorClients schedule) [Allocation.joinPoint 0 []])[j]? = some row ∧
      row.map jpId = [some 0] ∧
      row.head? = some (Allocation.joinPoint 0 []) ∧
      row.getLast? = some (Allocation.joinPoint (1 - 1) ([] : List Nat)) := by
    intro j hj
    refine ⟨[Allocation.joinPoint 0 []], ?_, rfl, rfl, rfl⟩
    rw [List.getElem?_replicate, if_pos hj]
  obtain ⟨S', c', h1, h2, h3⟩ := allocationsFold_spec (allocatorClients schedule) hm schedule
    (List.replicate (allocatorClients schedule) [Allocation.joinPoint 0 []]) 1 [some 0] []
    (List.length_replicate _ _) hbase (le_refl 1) rfl
  have halloc : allocations schedule
      = (schedule.foldl (fun acc g => (allocGroup acc.1 (allocatorClients schedule) acc.2 g,
          acc.2 + 1))
          (List.replicate (allocatorClients schedule) [Allocation.joinPoint 0 []], 1)).1 := rfl
  have hmem : ∀ row ∈ allocations schedule, row.map jpId = S' ∧
      row.head? = some (Allocation.joinPoint 0 []) ∧
      row.getLast? = some (Allocation.joinPoint (1 + schedule.length - 1) c') := by
    intro row hrow
    rw [halloc] at hrow
    obtain ⟨n, hn⟩ := List.mem_iff_getElem?.mp hrow
    have hnlt : n < allocatorClients schedule := by
      by_contra hge
      rw [List.getElem?_eq_none (by rw [h1]; omega)] at hn
      cases hn
    obtain ⟨row2, hrow2, hmap, hhead, hlast⟩ := h2 n hnlt
    rw [hrow2] at hn
    have : row2 = row := Option.some.injEq _ _ |>.mp hn
    subst this
    exact ⟨hmap, hhead, hlast⟩
  refine ⟨by rw [halloc, h1], ?_, ?_, ?_, ?_⟩
  · intro row1 hr1 row2 hr2
    obtain ⟨hm1, _, _⟩ := hmem row1 hr1
    obtain ⟨hm2, _, _⟩ := hmem row2 hr2
    refine ⟨?_, by rw [hm1, hm2]⟩
    have e1 : row1.length = S'.length := by rw [← hm1, List.length_map]
    have e2 : row2.length = S'.length := by rw [← hm2, List.length_map]
    omega
  · intro row hrow
    exact (hmem row hrow).2.1
  · intro row hrow
    obtain ⟨hmap, _, _⟩ := hmem row hrow
    have : row.filterMap jpId = (row.map jpId).filterMap id :=
      (List.filterMap_map jpId id row).symm
    rw [this, hmap, h3]
    congr 1
    omega
  · intro row hrow
    obtain ⟨_, _, hlast⟩ := hmem row hrow
    refine ⟨c', ?_⟩
    rw [hlast]
    congr 2
    omega

/-- Witness for C5 at a concrete schedule: one parallel group with sub-tasks
of 2 and 1 clients (the join-point barrier example of the specification). -/
theorem allocations_rectangular_spec_witness :
    (allocations [⟨3, [⟨2, false⟩, ⟨1, false⟩]⟩]).length
        = allocatorClients [⟨3, [⟨2, false⟩, ⟨1, false⟩]⟩] ∧
    (∀ row1 ∈ allocations [⟨3, [⟨2, false⟩, ⟨1, false⟩]⟩],
      ∀ row2 ∈ allocations [⟨3, [⟨2, false⟩, ⟨1, false⟩]⟩],
      row1.length = row2.length ∧ row1.map jpId = row2.map jpId) ∧
    (∀ row ∈ allocations [⟨3, [⟨2, false⟩, ⟨1, false⟩]⟩],
      row.head? = some (Allocation.joinPoint 0 [])) ∧
    (∀ row ∈ allocations [⟨3, [⟨2, false⟩, ⟨1, false⟩]⟩],
      row.filterMap jpId = List.range ([⟨3, [⟨2, false⟩, ⟨1, false⟩]⟩] : List TaskGroup).length.succ) ∧
    (∀ row ∈ allocations [⟨3, [⟨2, false⟩, ⟨1, false⟩]⟩], ∃ c,
      row.getLast? = some (Allocation.joinPoint
        ([⟨3, [⟨2, false⟩, ⟨1, false⟩]⟩] : List TaskGroup).length c)) :=
  allocations_rectangular_spec [⟨3, [⟨2, false⟩, ⟨1, false⟩]⟩]
